import Mathlib

/-!
Verification of the text-generation pipeline of `server.js`.

Strings are modelled as `List Char` at the ASCII level (JavaScript string
operations such as `toLowerCase`, `trim` and the regular expressions used by
the server only act on ASCII data in every property considered here).
Timestamps (`Date.now()`) are modelled as natural numbers supplied to each
operation; `Date.now()` is monotone but not strictly increasing, so equal
timestamps on consecutive operations are reachable.  The inference capability
(`generator(prompt, params)`) is an external asynchronous oracle; it is
modelled by the raw texts it returns, together with the possibility that a
call throws.  JavaScript `NaN` produced by `parseInt` on non-numeric input is
modelled as `Option.none`.
-/

set_option maxRecDepth 10000

namespace Srv

/-- JavaScript `\s` on ASCII data: space, tab, newline, carriage return,
vertical tab, form feed (code points 32, 9, 10, 13, 11, 12). -/
def jsIsSpace (c : Char) : Bool :=
  c.toNat = 32 || c.toNat = 9 || c.toNat = 10 || c.toNat = 13 ||
  c.toNat = 11 || c.toNat = 12

/-- The sentence terminators of the class `[.!?]` used throughout `server.js`. -/
def isPunct (c : Char) : Bool :=
  c == '.' || c == '!' || c == '?'

/-- JavaScript `String.prototype.trim` (ASCII model): drop whitespace from
both ends. -/
def trimChars (cs : List Char) : List Char :=
  ((cs.dropWhile jsIsSpace).reverse.dropWhile jsIsSpace).reverse

/-- JavaScript `s.replace(/R+/g, rep)` for a character class `R` given by `p`:
every maximal run of `p`-characters is replaced by the single character `rep`.
The boolean argument records whether the previous character was in a run. -/
def collapseRunsGo (rep : Char) (p : Char → Bool) : Bool → List Char → List Char
  | _, [] => []
  | inRun, c :: cs =>
    if p c then
      if inRun then collapseRunsGo rep p true cs
      else rep :: collapseRunsGo rep p true cs
    else c :: collapseRunsGo rep p false cs

/-- Model of `s.replace(/R+/g, rep)`, starting outside a run. -/
def collapseRuns (rep : Char) (p : Char → Bool) (cs : List Char) : List Char :=
  collapseRunsGo rep p false cs

/-- JavaScript `a.includes(b)` on strings: substring test. -/
def containsSub : List Char → List Char → Bool
  | needle, [] => needle.isEmpty
  | needle, c :: rest => needle.isPrefixOf (c :: rest) || containsSub needle rest

/-- Model of `text.charAt(0).toUpperCase() + text.slice(1)` (ASCII model). -/
def capitalize : List Char → List Char
  | [] => []
  | c :: rest => c.toUpper :: rest

/-- Whether `text.match(/[.!?]$/)` is truthy: the last character is a terminator. -/
def endsPunct (cs : List Char) : Bool :=
  match cs.getLast? with
  | some c => isPunct c
  | none => false

/-- The corruption marker `"undefined"` checked by `cleanUpPoint`. -/
def undefinedMarker : List Char := ['u','n','d','e','f','i','n','e','d']

/-- The corruption marker `"null"` checked by `cleanUpPoint`. -/
def nullMarker : List Char := ['n','u','l','l']

/-- The ordered alternatives of the filler regex
`/^(is that|that|because|by|through|and|but|or|so|also)\s+/i`
in `cleanUpPoint` (line 262 of `server.js`). -/
def fillerWords : List (List Char) :=
  [['i','s',' ','t','h','a','t'], ['t','h','a','t'], ['b','e','c','a','u','s','e'],
   ['b','y'], ['t','h','r','o','u','g','h'], ['a','n','d'], ['b','u','t'],
   ['o','r'], ['s','o'], ['a','l','s','o']]

/-- The ordered alternatives of `/^(it\s+|this\s+|they\s+)/i` in
`cleanUpPoint` (line 264 of `server.js`). -/
def pronounWords : List (List Char) :=
  [['i','t'], ['t','h','i','s'], ['t','h','e','y']]

/-- Case-insensitive match of the anchored pattern `word\s+` at the front of
`cs`: the word (compared after lower-casing `cs`) followed by at least one
whitespace character.  Returns the remainder after the greedy `\s+`. -/
def stripWordWs (word : List Char) (cs : List Char) : Option (List Char) :=
  if (cs.take word.length).map Char.toLower == word then
    match cs.drop word.length with
    | c :: rest => if jsIsSpace c then some (rest.dropWhile jsIsSpace) else none
    | [] => none
  else none

/-- First alternative of an ordered alternation `w₁\s+|w₂\s+|…` that matches
at the front of `cs` (regex alternation is ordered). -/
def firstAlt : List (List Char) → List Char → Option (List Char)
  | [], _ => none
  | w :: ws, cs =>
    match stripWordWs w cs with
    | some rest => some rest
    | none => firstAlt ws cs

/-- Model of `text.replace(/^(is that|…|also)\s+/i, '')`. -/
def stripFiller (cs : List Char) : List Char :=
  match firstAlt fillerWords cs with
  | some rest => rest
  | none => cs

/-- The character class `[•\-\*\d+\.]` of the bullet/number-marker regex in
`cleanUpPoint` (line 263): bullet, hyphen, asterisk, a digit, plus, dot.
Note the class matches exactly one such character. -/
def isMarkerChar (c : Char) : Bool :=
  c == '•' || c == '-' || c == '*' || c.isDigit || c == '+' || c == '.'

/-- Model of `text.replace(/^\s*[•\-\*\d+\.]\s*/, '')`: optional whitespace, one
marker character, optional whitespace; no change when the pattern does not
match (the single class character cannot be supplied by backtracking into
`\s*`, since no whitespace character is in the class). -/
def stripMarker (cs : List Char) : List Char :=
  match cs.dropWhile jsIsSpace with
  | c :: rest => if isMarkerChar c then rest.dropWhile jsIsSpace else cs
  | [] => cs

/-- JavaScript `text.replace(/^(it\s+|this\s+|they\s+)/i, ...)` where the
replacement is the topic followed by one space; the greedy `\s+` of the
matched alternative is consumed. -/
def replacePronoun (topic cs : List Char) : List Char :=
  match firstAlt pronounWords cs with
  | some rest => topic ++ ' ' :: rest
  | none => cs

/-- Model of `cleanUpPoint(text, topic)` from `server.js` lines 258–283.  Returns
`none` where the source returns `null`. -/
def cleanUpPoint (text topic : List Char) : Option (List Char) :=
  if text.length < 5 then none
  else
    let t1 := stripFiller text
    let t2 := stripMarker t1
    let t3 := replacePronoun topic t2
    let t4 := trimChars t3
    if t4.length < 10 then none
    else
      let t5 := capitalize t4
      let t6 := if endsPunct t5 then t5 else t5 ++ ['.']
      if containsSub undefinedMarker t6 || containsSub nullMarker t6 ||
          200 < t6.length then none
      else some t6

/-- Model of `text.split(/[.!?]/)` (single-character separator, no run collapsing):
the accumulator holds the current piece reversed. -/
def splitSingleGo : List Char → List Char → List (List Char)
  | [], acc => [acc.reverse]
  | c :: cs, acc =>
    if isPunct c then acc.reverse :: splitSingleGo cs []
    else splitSingleGo cs (c :: acc)

/-- Model of `cleanUpSinglePoint(text, topic)` from `server.js` lines 286–302.
`sentences.length > 0` always holds (a split is never the empty array), and
`sentences[0]` contains no terminator, so the `[.!?]$` test always fails and
a period is always appended. -/
def cleanUpSinglePoint (text topic : List Char) : Option (List Char) :=
  if text.isEmpty then none
  else
    let t := trimChars text
    let first := (splitSingleGo t []).headD []
    let cleanText := trimChars first
    if 8 < cleanText.length then
      let cap := capitalize cleanText
      let fin := if endsPunct cap then cap else cap ++ ['.']
      some (topic ++ ' ' :: fin)
    else none

/-- The five fixed fallback statements of `generateFallbackPoints`
(`server.js` lines 305–315): each is the raw topic followed by a fixed
templated tail. -/
def fallbackTemplates (topic : List Char) : List (List Char) :=
  [topic ++ (' ' :: ("provides significant benefits for users.".toList)),
   topic ++ (' ' :: ("has been shown to be effective in various applications.".toList)),
   topic ++ (' ' :: ("offers practical solutions for common challenges.".toList)),
   topic ++ (' ' :: ("represents an important advancement in its field.".toList)),
   topic ++ (' ' :: ("contributes to improved outcomes and efficiency.".toList))]

/-- Model of `generateFallbackPoints(topic, count)`: `fallbacks.slice(0, count)`. -/
def generateFallbackPoints (topic : List Char) (count : Nat) : List (List Char) :=
  (fallbackTemplates topic).take count

/-- A character matched by `[^\n\d]`: not a newline and not a digit. -/
def notNlDigit (c : Char) : Bool :=
  !(c == '\n') && !c.isDigit

/-- Largest index `j ≤ w` at which `[^\n\d]` can match in `r` (the greedy
`\s*` of `\d+\.\s*([^\n\d]+)` backtracks from the maximal whitespace run of
length `w` down to `0`). -/
def lastViable (r : List Char) (w : Nat) : Option Nat :=
  match r.get? w with
  | some c => if notNlDigit c then some w else
      match w with
      | 0 => none
      | w' + 1 => lastViable r w'
  | none =>
      match w with
      | 0 => none
      | w' + 1 => lastViable r w'

/-- Match of `\s*([^\n\d]+)` at the front of `r` with the greedy/backtracking
semantics of the JavaScript engine.  Returns the matched segment and the
remaining input. -/
def segMatch (r : List Char) : Option (List Char × List Char) :=
  let w := (r.takeWhile jsIsSpace).length
  match lastViable r w with
  | none => none
  | some j =>
    let run := (r.drop j).takeWhile notNlDigit
    some (r.take j ++ run, r.drop (j + run.length))

/-- Match of `\d+\.\s*([^\n\d]+)` anchored at the front of `cs` (no shorter
digit run can rescue a failed match, since `\.` never matches a digit).
Returns the full matched text and the remaining input. -/
def matchNumAt (cs : List Char) : Option (List Char × List Char) :=
  let d := cs.takeWhile Char.isDigit
  if d.isEmpty then none
  else
    match cs.drop d.length with
    | '.' :: r =>
      match segMatch r with
      | some (seg, rest) => some (d ++ '.' :: seg, rest)
      | none => none
    | _ => none

/-- Scanner for `text.match(/\d+\.\s*([^\n\d]+)/g)`: leftmost match, then
continue after it (a failed attempt advances the start by one character).
The fuel is the length of the remaining input; each step consumes at least
one character, so the fuel never runs out. -/
def numMatchesGo : Nat → List Char → List (List Char)
  | 0, _ => []
  | _ + 1, [] => []
  | fuel + 1, c :: cs =>
    match matchNumAt (c :: cs) with
    | some (m, rest) => m :: numMatchesGo fuel rest
    | none => numMatchesGo fuel cs

/-- Model of `text.match(/\d+\.\s*([^\n\d]+)/g)`, as the list of full matches (the
source uses the full matches, not the capture groups; `null` is the empty
list). -/
def numMatches (cs : List Char) : List (List Char) :=
  numMatchesGo cs.length cs

/-- Model of `match.replace(/^\d+\.\s*/, '')`: strip the leading digits, the dot and
the following whitespace run; no change when the pattern does not match. -/
def stripNumMarker (cs : List Char) : List Char :=
  let d := cs.takeWhile Char.isDigit
  if d.isEmpty then cs
  else
    match cs.drop d.length with
    | '.' :: r => r.dropWhile jsIsSpace
    | _ => cs

/-- Model of `text.split(/[.!?]+/)`: split on maximal runs of terminators; the
accumulator holds the current piece reversed, the flag records whether the
previous character belonged to a separator run. -/
def splitRunsGo : List Char → List Char → Bool → List (List Char)
  | [], acc, _ => [acc.reverse]
  | c :: cs, acc, inRun =>
    if isPunct c then
      if inRun then splitRunsGo cs acc true
      else acc.reverse :: splitRunsGo cs [] true
    else splitRunsGo cs (c :: acc) false

/-- The expected count circulating in the pipeline: `some n` for an actual
number, `none` for JavaScript `NaN` (which `parseInt` produces on
non-numeric input).  `len >= NaN` is `false`. -/
def geBound (len : Nat) : Option Nat → Bool
  | some n => n ≤ len
  | none => false

/-- Comparison `len < bound`: `len < NaN` is `false`; `len < n` otherwise. -/
def ltBound (len : Nat) : Option Nat → Bool
  | some n => len < n
  | none => false

/-- Model of `arr.slice(0, bound)` where the bound may be `NaN`: `slice` converts
`NaN` to `0`. -/
def sliceBound : Option Nat → Nat
  | some n => n
  | none => 0

/-- The numbered-match loop of `parseAndExtractPoints` (lines 231–240):
push each accepted cleanup result, and break as soon as the count reaches
`expectedCount` — checked only after a push. -/
def collectNumbered (topic : List Char) (ec : Option Nat)
    (pts : List (List Char)) : List (List Char) → List (List Char)
  | [] => pts
  | m :: ms =>
    match cleanUpPoint (trimChars (stripNumMarker m)) topic with
    | some p =>
      if geBound (pts ++ [p]).length ec then pts ++ [p]
      else collectNumbered topic ec (pts ++ [p]) ms
    | none => collectNumbered topic ec pts ms

/-- The sentence loop of `parseAndExtractPoints` (lines 243–252): break at
the top of each iteration once the count is reached; skip a candidate whose
first 20 characters already occur inside an accepted point. -/
def collectSentences (topic : List Char) (ec : Option Nat)
    (pts : List (List Char)) : List (List Char) → List (List Char)
  | [] => pts
  | s :: ss =>
    if geBound pts.length ec then pts
    else
      match cleanUpPoint (trimChars s) topic with
      | some p =>
        if pts.any (fun q => containsSub (p.take 20) q) then
          collectSentences topic ec pts ss
        else collectSentences topic ec (pts ++ [p]) ss
      | none => collectSentences topic ec pts ss

/-- Model of `parseAndExtractPoints(text, topic, expectedCount)` from `server.js`
lines 223–255. -/
def parseAndExtractPoints (text topic : List Char) (ec : Option Nat) :
    List (List Char) :=
  let t := trimChars (collapseRuns '\n' (fun c => c == '\n') text)
  let pts1 := collectNumbered topic ec [] (numMatches t)
  let pts2 :=
    if ltBound pts1.length ec then
      collectSentences topic ec pts1
        ((splitRunsGo t [] false).filter (fun s => 15 < (trimChars s).length))
    else pts1
  pts2.filter (fun p => 10 < p.length)

/-- Outcome of the inference capability for one request: either some call
throws (the `catch` in `generateOptimizedSet` is reached), or all calls
succeed, returning the raw text of the structured call and, for each index
`i`, the raw text of the `i`-th supplementary single-starter call. -/
inductive Inference where
  | throws : Inference
  | ok (structuredRaw : List Char) (singles : Nat → List Char) : Inference

/-- The gap-fill loop of `generateOptimizedSet` (lines 196–211): one
single-starter generation per missing point; keep a cleaned result when it
is non-null and longer than 10 characters. -/
def gapFillPoints (topic : List Char) (singles : Nat → List Char)
    (pts : List (List Char)) (needed : Nat) : List (List Char) :=
  pts ++ (List.range needed).filterMap (fun i =>
    match cleanUpSinglePoint (singles i) topic with
    | some p => if 10 < p.length then some p else none
    | none => none)

/-- The condition `needed > 0 && needed <= 3` of line 194, over a possibly
`NaN` requested count (any comparison with `NaN` is false). -/
def gapCond (rc : Option Nat) (len : Nat) : Bool :=
  match rc with
  | some n => decide (0 < n - len) && decide (n - len ≤ 3)
  | none => false

/-- The statements available after the structured attempt and the gap-fill
phase, before the final `slice(0, requestedCount)` — the `points` array of
`generateOptimizedSet` at the point of the line 214 return. -/
def combinedPoints (raw : List Char) (singles : Nat → List Char)
    (topic : List Char) (rc : Option Nat) : List (List Char) :=
  let pts := parseAndExtractPoints raw topic rc
  if geBound pts.length rc then pts
  else if gapCond rc pts.length then
    gapFillPoints topic singles pts (sliceBound rc - pts.length)
  else pts

/-- Model of `generateOptimizedSet(topic, requestedCount)` from `server.js` lines
161–220, parameterised by the inference outcome.  When any inference call
throws, the `catch` returns the fallback list; otherwise the collected
points are truncated by `slice(0, requestedCount)`. -/
def generateOptimizedSet (inf : Inference) (topic : List Char)
    (rc : Option Nat) : List (List Char) :=
  match inf with
  | .throws => (fallbackTemplates topic).take (sliceBound rc)
  | .ok raw singles => (combinedPoints raw singles topic rc).take (sliceBound rc)

/-- Decimal rendering of the requested count inside a cache key:
`` `${count}` `` renders `NaN` as `"NaN"`. -/
def renderCount : Option Nat → List Char
  | some n => Nat.toDigits 10 n
  | none => ['N','a','N']

/-- Model of `getCacheKey(topic, count)` from `server.js` lines 77–79:
`` topic.toLowerCase().trim().replace(/\s+/g, '_') + '_' + count ``. -/
def getCacheKey (topic : List Char) (rc : Option Nat) : List Char :=
  collapseRuns '_' jsIsSpace (trimChars (topic.map Char.toLower)) ++
    '_' :: renderCount rc

/-- A `generationCache` entry (`server.js` lines 395–400).  Wall-clock
durations are not modelled, so `generationTime` is stored as `0`. -/
structure CacheEntry where
  points : List (List Char)
  generationTime : Nat
  lastUsed : Nat
  created : Nat
deriving DecidableEq

/-- The `generationCache` `Map`, as its insertion-ordered entry list. -/
abbrev Cache := List (List Char × CacheEntry)

/-- The `cacheHits` `Map`, as its insertion-ordered entry list. -/
abbrev Hits := List (List Char × Nat)

/-- Constant `MAX_CACHE_SIZE` (`server.js` line 74). -/
def MAX_CACHE_SIZE : Nat := 200

/-- Model of `generationCache.get(key)` combined with `generationCache.has(key)`. -/
def lookupC (c : Cache) (k : List Char) : Option CacheEntry :=
  (c.find? (fun e => e.1 == k)).map (fun e => e.2)

/-- Model of `cached.lastUsed = Date.now(); generationCache.set(cacheKey, cached)` on
a hit: `Map.set` on an existing key keeps the entry's position. -/
def touchEntry (c : Cache) (k : List Char) (now : Nat) : Cache :=
  c.map (fun e => if e.1 == k then (e.1, { e.2 with lastUsed := now }) else e)

/-- Model of `cacheHits.set(cacheKey, (cacheHits.get(cacheKey) || 0) + 1)`. -/
def bumpHits (h : Hits) (k : List Char) : Hits :=
  if (h.find? (fun e => e.1 == k)).isSome then
    h.map (fun e => if e.1 == k then (e.1, e.2 + 1) else e)
  else h ++ [(k, 1)]

/-- The scan of `cleanCache` (lines 87–92): iterate the entries in insertion
order, keeping the first entry whose `lastUsed` is strictly below the
running minimum, which starts at `Date.now()`. -/
def findOldestGo : Option (List Char) → Nat → Cache → Option (List Char) × Nat
  | bestK, bestT, [] => (bestK, bestT)
  | bestK, bestT, (k, e) :: rest =>
    if e.lastUsed < bestT then findOldestGo (some k) e.lastUsed rest
    else findOldestGo bestK bestT rest

/-- The `oldestKey` computed by `cleanCache` at time `now`. -/
def findOldest (c : Cache) (now : Nat) : Option (List Char) :=
  (findOldestGo none now c).1

/-- Model of `Map.delete(k)`: remove the (unique) entry with key `k`. -/
def eraseKeyC (c : Cache) (k : List Char) : Cache :=
  c.eraseP (fun e => e.1 == k)

/-- Model of `Map.delete(k)` on the hits map. -/
def eraseKeyH (h : Hits) (k : List Char) : Hits :=
  h.eraseP (fun e => e.1 == k)

/-- Model of `cleanCache()` from `server.js` lines 81–99: when the cache has reached
`MAX_CACHE_SIZE`, evict the key found by the scan (if any) from both maps. -/
def cleanCache (c : Cache) (h : Hits) (now : Nat) : Cache × Hits :=
  if MAX_CACHE_SIZE ≤ c.length then
    match findOldest c now with
    | some k => (eraseKeyC c k, eraseKeyH h k)
    | none => (c, h)
  else (c, h)

/-- One cache mutation of the request handler, at the cache level: a hit
refreshes `lastUsed` in place; a miss runs `cleanCache()` and then appends a
fresh entry (`Map.set` on a new key appends). -/
def cacheStep (c : Cache) (k : List Char) (pts : List (List Char))
    (now : Nat) : Cache :=
  if (lookupC c k).isSome then touchEntry c k now
  else (cleanCache c [] now).1 ++ [(k, ⟨pts, 0, now, now⟩)]

/-- A sequence of cache operations: each element is a key and the
`Date.now()` timestamp of the operation. -/
def runCacheTrace : List (List Char × Nat) → Cache
  | [] => []
  | (k, t) :: rest => cacheStep (runCacheTrace rest) k [] t

/-- A JSON value supplied as the `count` field of a request body (numbers
are modelled as integers; fractional JSON numbers are out of scope of every
claim considered). -/
inductive JVal where
  | num (n : Int) : JVal
  | str (s : List Char) : JVal
  | jnull : JVal
  | jbool (b : Bool) : JVal
deriving DecidableEq

/-- Model of `parseInt` on a string: optional leading whitespace, optional sign, then
a non-empty digit run; `none` is `NaN`. -/
def parseIntStr (s : List Char) : Option Int :=
  let t := s.dropWhile jsIsSpace
  match t with
  | '-' :: rest =>
    let d := rest.takeWhile Char.isDigit
    if d.isEmpty then none else some (-(d.foldl (fun a c => a * 10 + (c.toNat - 48)) 0 : Nat))
  | '+' :: rest =>
    let d := rest.takeWhile Char.isDigit
    if d.isEmpty then none else some ((d.foldl (fun a c => a * 10 + (c.toNat - 48)) 0 : Nat))
  | _ =>
    let d := t.takeWhile Char.isDigit
    if d.isEmpty then none else some ((d.foldl (fun a c => a * 10 + (c.toNat - 48)) 0 : Nat))

/-- Model of `parseInt(count)` for a JSON `count` value: numbers stringify and parse
back to themselves, strings are parsed, `null` stringifies to `"null"` and
`true`/`false` to words, all parsing to `NaN` (`none`). -/
def parseIntJS : JVal → Option Int
  | .num n => some n
  | .str s => parseIntStr s
  | .jnull => none
  | .jbool _ => none

/-- Model of `Math.min(Math.max(parseInt(count), 1), 5)` with `count = 3` as the
destructuring default (line 355 and 363); `Math.max`/`Math.min` propagate
`NaN`. -/
def requestedCountJS : Option JVal → Option Int
  | none => some (min (max 3 1) 5)
  | some v => (parseIntJS v).map (fun n => min (max n 1) 5)

/-- The `requestedCount` as circulated to `getCacheKey` and the generation
pipeline: a clamped value is at least 1, so it is a natural number; `NaN`
stays `none`. -/
def requestedCountN (count : Option JVal) : Option Nat :=
  (requestedCountJS count).map Int.toNat

/-- Global state touched by `POST /api/generate`: the two maps. -/
structure ServerState where
  cache : Cache
  hits : Hits
deriving DecidableEq

/-- The empty initial state (`server.js` lines 73–75). -/
def initialState : ServerState := ⟨[], []⟩

/-- Observable outcome of one `POST /api/generate` request.  `ok` carries
the fields of the HTTP 200 `success: true` JSON body; `badRequest` is the
HTTP 400 response for a blank prompt; `serverError` is the HTTP 500
`success: false` response produced when `loadModel()` rejects. -/
inductive Response where
  | badRequest : Response
  | serverError : Response
  | ok (topic : List Char) (requestedCount : Option Nat) (generatedCount : Nat)
      (points : List (List Char)) (cached : Bool) : Response
deriving DecidableEq

/-- The `points` field of a response (empty for error responses). -/
def respPoints : Response → List (List Char)
  | .ok _ _ _ pts _ => pts
  | _ => []

/-- The `cached` field of a response (`false` for error responses). -/
def respCached : Response → Bool
  | .ok _ _ _ _ cached => cached
  | _ => false

/-- The `generatedCount` field of a response (`0` for error responses). -/
def respGenCount : Response → Nat
  | .ok _ _ gc _ _ => gc
  | _ => 0

/-- Whether a response is the HTTP 200 `success: true` shape. -/
def respSuccess : Response → Bool
  | .ok _ _ _ _ _ => true
  | _ => false

/-- Model of `POST /api/generate` (`server.js` lines 351–425): validate the prompt,
await the model, clamp the count, look up the cache (refreshing `lastUsed`
and the hit counter on a hit), otherwise generate, run `cleanCache()` and
store the new entry.  `loadOk` is whether `loadModel()` resolves, `inf` the
inference outcome for this request, `now` the request's `Date.now()`. -/
def handleGenerate (st : ServerState) (loadOk : Bool) (inf : Inference)
    (prompt : List Char) (count : Option JVal) (now : Nat) :
    Response × ServerState :=
  if (trimChars prompt).length = 0 then (.badRequest, st)
  else if ¬ loadOk then (.serverError, st)
  else
    let topic := trimChars prompt
    let rc := requestedCountN count
    let key := getCacheKey topic rc
    match lookupC st.cache key with
    | some entry =>
      (.ok topic rc entry.points.length entry.points true,
       ⟨touchEntry st.cache key now, bumpHits st.hits key⟩)
    | none =>
      let pts := generateOptimizedSet inf topic rc
      let cleaned := cleanCache st.cache st.hits now
      (.ok topic rc pts.length pts false,
       ⟨cleaned.1 ++ [(key, ⟨pts, 0, now, now⟩)], cleaned.2⟩)

/-- Run a list of requests in order (model always loaded), returning the
final state; each element carries the prompt, the count value, the
inference outcome and the request's timestamp. -/
def runRequests (st : ServerState) :
    List (List Char × Option JVal × Inference × Nat) → ServerState
  | [] => st
  | (p, c, inf, t) :: rest =>
    runRequests (handleGenerate st true inf p c t).2 rest

/-- Model of `x.toFixed(1)` for the nonnegative rationals produced by the hit-rate
computation: round `10·x` to the nearest integer and print one decimal. -/
def toFixed1 (q : ℚ) : List Char :=
  let m := (Int.floor (q * 10 + 1 / 2)).toNat
  Nat.toDigits 10 (m / 10) ++ '.' :: Nat.toDigits 10 (m % 10)

/-- Model of `calculateCacheHitRate()` from `server.js` lines 341–349: both
`totalHits` and `totalRequests` accumulate the same per-key hit counters, so
the quotient is computed in `ℚ` and rendered with one decimal digit; when no
counters exist the number `0` is returned instead of a string. -/
def calculateCacheHitRate (h : Hits) : JVal :=
  let totalHits : Nat := (h.map (fun e => e.2)).sum
  let totalRequests : Nat := (h.map (fun e => e.2)).sum
  if 0 < totalRequests then
    .str (toFixed1 ((totalHits : ℚ) / (totalRequests : ℚ) * 100))
  else .num 0

/-- The model readiness gate's mutable globals (`server.js` lines 25–27):
whether `generator` is non-null, whether `tokenizer` is non-null, and the
`modelLoading` flag.  `tokenizer` is declared at line 27 and never assigned
anywhere in the file. -/
structure ModelGate where
  generator : Bool
  tokenizer : Bool
  modelLoading : Bool
deriving DecidableEq

/-- The initial gate state: both handles null, not loading. -/
def initialGate : ModelGate := ⟨false, false, false⟩

/-- What a call to `loadModel()` (lines 30–70) does first: return the cached
handle if `generator && tokenizer`, else poll while `modelLoading`, else
start a fresh `pipeline('text-generation', …)` load. -/
inductive LoadAction where
  | returnHandle : LoadAction
  | waitForLoad : LoadAction
  | startLoad : LoadAction
deriving DecidableEq

/-- The branch taken by a `loadModel()` call in gate state `s`. -/
def loadModelAction (s : ModelGate) : LoadAction :=
  if s.generator && s.tokenizer then .returnHandle
  else if s.modelLoading then .waitForLoad
  else .startLoad

/-- Entering the load: `modelLoading = true`. -/
def startLoading (s : ModelGate) : ModelGate :=
  { s with modelLoading := true }

/-- A successful load (lines 44–64): `generator` is assigned, the pre-warm
succeeds, `modelLoading = false`; `tokenizer` is never assigned. -/
def loadSucceeds (s : ModelGate) : ModelGate :=
  { s with generator := true, modelLoading := false }

/-- An ASCII lowercase letter. -/
def isAsciiLower (c : Char) : Bool :=
  97 ≤ c.toNat && c.toNat ≤ 122

/-- An ASCII uppercase letter. -/
def isAsciiUpper (c : Char) : Bool :=
  65 ≤ c.toNat && c.toNat ≤ 90

/-- Modelled from the spec (§3 Statement): the well-formedness predicate of
the claims — non-empty, trimmed, starting with an uppercase letter, ending
in `.`/`!`/`?`, at most 200 characters, containing neither `"undefined"`
nor `"null"`. -/
def specWellFormed (p : List Char) : Bool :=
  !p.isEmpty && trimChars p == p &&
  (match p.head? with
   | some c => isAsciiUpper c
   | none => false) &&
  endsPunct p && p.length ≤ 200 &&
  !containsSub undefinedMarker p && !containsSub nullMarker p

/-- Modelled from the spec (§3 Topic): the normalisation named by claim C6 —
case-folded, trimmed, whitespace runs collapsed (to a single space). -/
def specNormalize (s : List Char) : List Char :=
  collapseRuns ' ' jsIsSpace (trimChars (s.map Char.toLower))

/-- The minimal `lastUsed` among the cache entries. -/
def minLast : Cache → Option Nat
  | [] => none
  | e :: rest =>
    match minLast rest with
    | none => some e.2.lastUsed
    | some m => some (min e.2.lastUsed m)

/-- Modelled from the spec (§4.7 and claim C5): the key the LRU policy must
evict — the first-encountered entry with the minimal `lastUsed`. -/
def lruVictim (c : Cache) : Option (List Char) :=
  match minLast c with
  | none => none
  | some m => (c.find? (fun e => e.2.lastUsed == m)).map (fun e => e.1)

theorem toNat_toUpper (c : Char) :
    (Char.toUpper c).toNat =
      if 97 ≤ c.toNat ∧ c.toNat ≤ 122 then c.toNat - 32 else c.toNat := by
  unfold Char.toUpper
  by_cases h : 97 ≤ c.toNat ∧ c.toNat ≤ 122
  · have hv : (c.toNat - 32).isValidChar := Or.inl (by omega)
    rw [if_pos ⟨h.1, h.2⟩, if_pos h]
    show (Char.ofNat (c.toNat - 32)).toNat = c.toNat - 32
    unfold Char.ofNat
    rw [dif_pos hv]
    rfl
  · rw [if_neg (fun hh => h ⟨hh.1, hh.2⟩), if_neg h]

theorem toNat_toLower (c : Char) :
    (Char.toLower c).toNat =
      if 65 ≤ c.toNat ∧ c.toNat ≤ 90 then c.toNat + 32 else c.toNat := by
  unfold Char.toLower
  by_cases h : 65 ≤ c.toNat ∧ c.toNat ≤ 90
  · have hv : (c.toNat + 32).isValidChar := Or.inl (by omega)
    rw [if_pos ⟨h.1, h.2⟩, if_pos h]
    show (Char.ofNat (c.toNat + 32)).toNat = c.toNat + 32
    unfold Char.ofNat
    rw [dif_pos hv]
    rfl
  · rw [if_neg (fun hh => h ⟨hh.1, hh.2⟩), if_neg h]

theorem isAsciiLower_toUpper (c : Char) : isAsciiLower (Char.toUpper c) = false := by
  have h := toNat_toUpper c
  simp only [isAsciiLower, h]
  split
  · next hc =>
    simp only [Bool.and_eq_false_iff, decide_eq_false_iff_not]
    omega
  · next hc =>
    simp only [Bool.and_eq_false_iff, decide_eq_false_iff_not]
    omega

theorem jsIsSpace_toUpper (c : Char) : jsIsSpace (Char.toUpper c) = jsIsSpace c := by
  simp only [jsIsSpace, toNat_toUpper]
  split
  · next h =>
    have l : ((decide (c.toNat - 32 = 32) || decide (c.toNat - 32 = 9) ||
        decide (c.toNat - 32 = 10) || decide (c.toNat - 32 = 13) ||
        decide (c.toNat - 32 = 11) || decide (c.toNat - 32 = 12)) = false) := by
      simp only [Bool.or_eq_false_iff, decide_eq_false_iff_not]
      omega
    have r : ((decide (c.toNat = 32) || decide (c.toNat = 9) ||
        decide (c.toNat = 10) || decide (c.toNat = 13) ||
        decide (c.toNat = 11) || decide (c.toNat = 12)) = false) := by
      simp only [Bool.or_eq_false_iff, decide_eq_false_iff_not]
      omega
    rw [l, r]
  · rfl

theorem jsIsSpace_toLower (c : Char) : jsIsSpace (Char.toLower c) = jsIsSpace c := by
  simp only [jsIsSpace, toNat_toLower]
  split
  · next h =>
    have l : ((decide (c.toNat + 32 = 32) || decide (c.toNat + 32 = 9) ||
        decide (c.toNat + 32 = 10) || decide (c.toNat + 32 = 13) ||
        decide (c.toNat + 32 = 11) || decide (c.toNat + 32 = 12)) = false) := by
      simp only [Bool.or_eq_false_iff, decide_eq_false_iff_not]
      omega
    have r : ((decide (c.toNat = 32) || decide (c.toNat = 9) ||
        decide (c.toNat = 10) || decide (c.toNat = 13) ||
        decide (c.toNat = 11) || decide (c.toNat = 12)) = false) := by
      simp only [Bool.or_eq_false_iff, decide_eq_false_iff_not]
      omega
    rw [l, r]
  · rfl

theorem jsIsSpace_of_isPunct {c : Char} (h : isPunct c = true) : jsIsSpace c = false := by
  simp only [isPunct, Bool.or_eq_true, beq_iff_eq] at h
  rcases h with (h | h) | h <;> subst h <;> decide

theorem head?_dropWhile_false {α : Type} (p : α → Bool) :
    ∀ (l : List α) {c : α}, (l.dropWhile p).head? = some c → p c = false := by
  intro l
  induction l with
  | nil => intro c h; simp [List.dropWhile] at h
  | cons x xs ih =>
    intro c h
    rw [List.dropWhile_cons] at h
    by_cases hx : p x = true
    · rw [if_pos hx] at h; exact ih h
    · rw [if_neg hx] at h
      simp only [List.head?_cons, Option.some.injEq] at h
      subst h
      exact Bool.eq_false_iff.mpr hx

theorem getLast?_cons_ne {α : Type} (x : α) {xs : List α} (h : xs ≠ []) :
    (x :: xs).getLast? = xs.getLast? := by
  cases xs with
  | nil => exact absurd rfl h
  | cons y ys => exact List.getLast?_cons_cons

theorem getLast?_dropWhile {α : Type} (p : α → Bool) :
    ∀ l : List α, l.dropWhile p ≠ [] → (l.dropWhile p).getLast? = l.getLast? := by
  intro l
  induction l with
  | nil => intro h; simp [List.dropWhile] at h
  | cons x xs ih =>
    by_cases hx : p x = true
    · rw [List.dropWhile_cons, if_pos hx]
      intro h
      have hxs : xs ≠ [] := by
        intro e
        subst e
        simp [List.dropWhile] at h
      rw [ih h, getLast?_cons_ne x hxs]
    · rw [List.dropWhile_cons, if_neg hx]
      intro _
      rfl

theorem trimChars_head (l : List Char) {c : Char}
    (h : (trimChars l).head? = some c) : jsIsSpace c = false := by
  unfold trimChars at h
  rw [List.head?_reverse] at h
  have hne : (l.dropWhile jsIsSpace).reverse.dropWhile jsIsSpace ≠ [] := by
    intro e; rw [e] at h; simp at h
  rw [getLast?_dropWhile jsIsSpace _ hne, List.getLast?_reverse] at h
  exact head?_dropWhile_false jsIsSpace l h

theorem trimChars_getLast (l : List Char) {c : Char}
    (h : (trimChars l).getLast? = some c) : jsIsSpace c = false := by
  unfold trimChars at h
  rw [List.getLast?_reverse] at h
  exact head?_dropWhile_false jsIsSpace _ h

theorem trimChars_eq_self {l : List Char}
    (h1 : ∀ c, l.head? = some c → jsIsSpace c = false)
    (h2 : ∀ c, l.getLast? = some c → jsIsSpace c = false) :
    trimChars l = l := by
  cases l with
  | nil => rfl
  | cons x xs =>
    have hx : jsIsSpace x = false := h1 x rfl
    unfold trimChars
    rw [List.dropWhile_cons, if_neg (by simp [hx])]
    cases hrev : (x :: xs).reverse with
    | nil => exact absurd hrev (by simp)
    | cons y ys =>
      have hy : (x :: xs).getLast? = some y := by
        rw [← List.head?_reverse, hrev]; rfl
      have hys : jsIsSpace y = false := h2 y hy
      have hdw : List.dropWhile jsIsSpace (y :: ys) = y :: ys := by
        rw [List.dropWhile_cons, if_neg (by simp [hys])]
      rw [hdw, ← hrev, List.reverse_reverse]

theorem trimChars_trimChars (l : List Char) :
    trimChars (trimChars l) = trimChars l :=
  trimChars_eq_self (fun _ h => trimChars_head l h) (fun _ h => trimChars_getLast l h)

theorem dropWhile_map_eq {α : Type} (f : α → α) (p : α → Bool)
    (hp : ∀ a, p (f a) = p a) :
    ∀ l : List α, (l.map f).dropWhile p = (l.dropWhile p).map f := by
  intro l
  induction l with
  | nil => rfl
  | cons x xs ih =>
    rw [List.map_cons, List.dropWhile_cons, List.dropWhile_cons, hp x]
    by_cases hx : p x = true
    · rw [if_pos hx, if_pos hx, ih]
    · rw [if_neg hx, if_neg hx, List.map_cons]

theorem trimChars_map_toLower (l : List Char) :
    trimChars (l.map Char.toLower) = (trimChars l).map Char.toLower := by
  unfold trimChars
  rw [dropWhile_map_eq Char.toLower jsIsSpace jsIsSpace_toLower l,
    ← List.map_reverse, dropWhile_map_eq Char.toLower jsIsSpace jsIsSpace_toLower,
    ← List.map_reverse]

theorem collapseRunsGo_underscore (l : List Char) :
    ∀ b, collapseRunsGo '_' jsIsSpace b l =
      (collapseRunsGo ' ' jsIsSpace b l).map
        (fun c => if c = ' ' then '_' else c) := by
  induction l with
  | nil => intro b; rfl
  | cons x xs ih =>
    intro b
    by_cases hx : jsIsSpace x = true
    · cases b <;> simp [collapseRunsGo, hx, ih]
    · have hxs : x ≠ ' ' := by
        intro e; subst e; exact hx (by decide)
      cases b <;> simp [collapseRunsGo, hx, hxs, ih]

theorem getCacheKey_of_specNormalize {p₁ p₂ : List Char}
    (h : specNormalize p₁ = specNormalize p₂) (rc : Option Nat) :
    getCacheKey (trimChars p₁) rc = getCacheKey (trimChars p₂) rc := by
  unfold getCacheKey
  have core : ∀ q : List Char,
      collapseRuns '_' jsIsSpace (trimChars ((trimChars q).map Char.toLower)) =
        (specNormalize q).map (fun c => if c = ' ' then '_' else c) := by
    intro q
    rw [← trimChars_map_toLower, trimChars_trimChars]
    unfold specNormalize collapseRuns
    exact collapseRunsGo_underscore _ false
  rw [core p₁, core p₂, h]

theorem endsPunct_iff {l : List Char} :
    endsPunct l = true ↔ ∃ c, l.getLast? = some c ∧ isPunct c = true := by
  unfold endsPunct
  cases h : l.getLast? with
  | none => simp
  | some c => simp

theorem cleanUpPoint_wf {text topic p : List Char}
    (h : cleanUpPoint text topic = some p) :
    p ≠ [] ∧ trimChars p = p ∧
      (∀ c, p.head? = some c → isAsciiLower c = false) ∧
      endsPunct p = true ∧ p.length ≤ 200 ∧
      containsSub undefinedMarker p = false ∧ containsSub nullMarker p = false := by
  simp only [cleanUpPoint] at h
  by_cases h5 : text.length < 5
  · rw [if_pos h5] at h; cases h
  rw [if_neg h5] at h
  by_cases h10 :
      (trimChars (replacePronoun topic (stripMarker (stripFiller text)))).length < 10
  · rw [if_pos h10] at h; cases h
  rw [if_neg h10] at h
  rcases ht4 : trimChars (replacePronoun topic (stripMarker (stripFiller text))) with
    _ | ⟨c0, rest⟩
  · rw [ht4] at h10; simp at h10
  rw [ht4] at h h10
  have hrest : rest ≠ [] := by
    intro e; subst e; simp at h10
  have hc0 : jsIsSpace c0 = false := by
    apply trimChars_head (replacePronoun topic (stripMarker (stripFiller text)))
    rw [ht4]; rfl
  have hlast4 : ∀ c, (c0 :: rest).getLast? = some c → jsIsSpace c = false := by
    intro c hc
    apply trimChars_getLast (replacePronoun topic (stripMarker (stripFiller text)))
    rw [ht4]; exact hc
  have hcap : capitalize (c0 :: rest) = c0.toUpper :: rest := rfl
  rw [hcap] at h
  by_cases hep : endsPunct (c0.toUpper :: rest) = true
  · rw [if_pos hep] at h
    by_cases hguard : (containsSub undefinedMarker (c0.toUpper :: rest) ||
        containsSub nullMarker (c0.toUpper :: rest) ||
        decide (200 < (c0.toUpper :: rest).length)) = true
    · rw [if_pos hguard] at h; cases h
    rw [if_neg hguard] at h
    injection h with h
    subst h
    simp only [Bool.or_eq_true, not_or, Bool.not_eq_true, decide_eq_false_iff_not] at hguard
    obtain ⟨cl, hcl, hclp⟩ := endsPunct_iff.mp hep
    refine ⟨by simp, ?_, ?_, hep, by omega, hguard.1.1, hguard.1.2⟩
    · apply trimChars_eq_self
      · intro c hc
        simp only [List.head?_cons, Option.some.injEq] at hc
        subst hc
        rw [jsIsSpace_toUpper, hc0]
      · intro c hc
        rw [hcl] at hc
        injection hc with hc
        subst hc
        exact jsIsSpace_of_isPunct hclp
    · intro c hc
      simp only [List.head?_cons, Option.some.injEq] at hc
      subst hc
      exact isAsciiLower_toUpper c0
  · rw [if_neg hep] at h
    by_cases hguard : (containsSub undefinedMarker (c0.toUpper :: rest ++ ['.']) ||
        containsSub nullMarker (c0.toUpper :: rest ++ ['.']) ||
        decide (200 < (c0.toUpper :: rest ++ ['.']).length)) = true
    · rw [if_pos hguard] at h; cases h
    rw [if_neg hguard] at h
    injection h with h
    subst h
    simp only [Bool.or_eq_true, not_or, Bool.not_eq_true, decide_eq_false_iff_not] at hguard
    have hlastp : ((c0.toUpper :: rest) ++ ['.']).getLast? = some '.' :=
      List.getLast?_concat _
    have hheadp : ((c0.toUpper :: rest) ++ ['.']).head? = some c0.toUpper := by
      rw [List.head?_append_of_ne_nil _ (by simp)]
      rfl
    have hne : (c0.toUpper :: rest) ++ ['.'] ≠ [] := by
      intro e
      have hl := congrArg List.length e
      simp at hl
    refine ⟨hne, ?_, ?_, ?_, by simpa using hguard.2, hguard.1.1, hguard.1.2⟩
    · apply trimChars_eq_self
      · intro c hc
        rw [hheadp] at hc
        injection hc with hc
        subst hc
        rw [jsIsSpace_toUpper, hc0]
      · intro c hc
        rw [hlastp] at hc
        injection hc with hc
        subst hc
        decide
    · intro c hc
      rw [hheadp] at hc
      injection hc with hc
      subst hc
      exact isAsciiLower_toUpper c0
    · rw [endsPunct_iff]
      exact ⟨'.', hlastp, rfl⟩

theorem cleanUpSinglePoint_shape {text topic p : List Char}
    (h : cleanUpSinglePoint text topic = some p) :
    ∃ r, p = topic ++ ' ' :: r := by
  simp only [cleanUpSinglePoint] at h
  by_cases h0 : text.isEmpty = true
  · rw [if_pos h0] at h; cases h
  rw [if_neg h0] at h
  by_cases h8 : 8 <
      (trimChars ((splitSingleGo (trimChars text) []).headD [])).length
  · rw [if_pos h8] at h
    injection h with h
    exact ⟨_, h.symm⟩
  · rw [if_neg h8] at h; cases h

theorem mem_collectNumbered {topic : List Char} {ec : Option Nat} :
    ∀ (ms : List (List Char)) (pts : List (List Char)) {p : List Char},
      p ∈ collectNumbered topic ec pts ms →
      p ∈ pts ∨ ∃ t, cleanUpPoint t topic = some p := by
  intro ms
  induction ms with
  | nil => intro pts p h; exact Or.inl h
  | cons m ms ih =>
    intro pts p h
    simp only [collectNumbered] at h
    rcases hc : cleanUpPoint (trimChars (stripNumMarker m)) topic with _ | q
    · simp only [hc] at h
      exact ih pts h
    · simp only [hc] at h
      by_cases hfull : geBound (pts ++ [q]).length ec = true
      · rw [if_pos hfull] at h
        rcases List.mem_append.mp h with h | h
        · exact Or.inl h
        · simp only [List.mem_singleton] at h
          subst h
          exact Or.inr ⟨_, hc⟩
      · rw [if_neg hfull] at h
        rcases ih (pts ++ [q]) h with h | h
        · rcases List.mem_append.mp h with h | h
          · exact Or.inl h
          · simp only [List.mem_singleton] at h
            subst h
            exact Or.inr ⟨_, hc⟩
        · exact Or.inr h

theorem mem_collectSentences {topic : List Char} {ec : Option Nat} :
    ∀ (ss : List (List Char)) (pts : List (List Char)) {p : List Char},
      p ∈ collectSentences topic ec pts ss →
      p ∈ pts ∨ ∃ t, cleanUpPoint t topic = some p := by
  intro ss
  induction ss with
  | nil => intro pts p h; exact Or.inl h
  | cons s ss ih =>
    intro pts p h
    simp only [collectSentences] at h
    by_cases hfull : geBound pts.length ec = true
    · rw [if_pos hfull] at h
      exact Or.inl h
    rw [if_neg hfull] at h
    rcases hc : cleanUpPoint (trimChars s) topic with _ | q
    · simp only [hc] at h
      exact ih pts h
    · simp only [hc] at h
      by_cases hdup : pts.any (fun q' => containsSub (q.take 20) q') = true
      · rw [if_pos hdup] at h
        exact ih pts h
      · rw [if_neg hdup] at h
        rcases ih (pts ++ [q]) h with h | h
        · rcases List.mem_append.mp h with h | h
          · exact Or.inl h
          · simp only [List.mem_singleton] at h
            subst h
            exact Or.inr ⟨_, hc⟩
        · exact Or.inr h

theorem mem_parseAndExtractPoints {text topic : List Char} {ec : Option Nat}
    {p : List Char} (h : p ∈ parseAndExtractPoints text topic ec) :
    ∃ t, cleanUpPoint t topic = some p := by
  simp only [parseAndExtractPoints] at h
  have h2 := List.mem_of_mem_filter h
  by_cases hlt : ltBound
      (collectNumbered topic ec []
        (numMatches (trimChars (collapseRuns '\n' (fun c => c == '\n') text)))).length
      ec = true
  · rw [if_pos hlt] at h2
    rcases mem_collectSentences _ _ h2 with h3 | h3
    · rcases mem_collectNumbered _ _ h3 with h4 | h4
      · cases h4
      · exact h4
    · exact h3
  · rw [if_neg hlt] at h2
    rcases mem_collectNumbered _ _ h2 with h4 | h4
    · cases h4
    · exact h4

theorem collectNumbered_le {topic : List Char} {n : Nat} :
    ∀ (ms : List (List Char)) (pts : List (List Char)), pts.length < n →
      (collectNumbered topic (some n) pts ms).length ≤ n := by
  intro ms
  induction ms with
  | nil => intro pts h; exact Nat.le_of_lt h
  | cons m ms ih =>
    intro pts h
    simp only [collectNumbered]
    rcases hc : cleanUpPoint (trimChars (stripNumMarker m)) topic with _ | q
    · simp only [hc]
      exact ih pts h
    · simp only [hc]
      have hlen : (pts ++ [q]).length = pts.length + 1 := by simp
      by_cases hfull : geBound (pts ++ [q]).length (some n) = true
      · rw [if_pos hfull]
        omega
      · rw [if_neg hfull]
        apply ih
        simp only [geBound, decide_eq_true_eq] at hfull
        omega

theorem collectSentences_le {topic : List Char} {n : Nat} :
    ∀ (ss : List (List Char)) (pts : List (List Char)), pts.length ≤ n →
      (collectSentences topic (some n) pts ss).length ≤ n := by
  intro ss
  induction ss with
  | nil => intro pts h; exact h
  | cons s ss ih =>
    intro pts h
    simp only [collectSentences]
    by_cases hfull : geBound pts.length (some n) = true
    · rw [if_pos hfull]; exact h
    rw [if_neg hfull]
    simp only [geBound, decide_eq_true_eq] at hfull
    rcases hc : cleanUpPoint (trimChars s) topic with _ | q
    · simp only [hc]
      exact ih pts h
    · simp only [hc]
      by_cases hdup : pts.any (fun q' => containsSub (q.take 20) q') = true
      · rw [if_pos hdup]; exact ih pts h
      · rw [if_neg hdup]
        apply ih
        have hlen : (pts ++ [q]).length = pts.length + 1 := by simp
        omega

theorem parseAndExtractPoints_le {text topic : List Char} {n : Nat}
    (hn : 1 ≤ n) : (parseAndExtractPoints text topic (some n)).length ≤ n := by
  simp only [parseAndExtractPoints]
  have h1 : (collectNumbered topic (some n) []
      (numMatches (trimChars (collapseRuns '\n' (fun c => c == '\n') text)))).length ≤ n :=
    collectNumbered_le _ _ (by simpa using hn)
  apply le_trans (List.length_filter_le _ _)
  by_cases hlt : ltBound
      (collectNumbered topic (some n) []
        (numMatches (trimChars (collapseRuns '\n' (fun c => c == '\n') text)))).length
      (some n) = true
  · rw [if_pos hlt]
    exact collectSentences_le _ _ h1
  · rw [if_neg hlt]
    exact h1

theorem collectNumbered_stop {topic : List Char} {n : Nat} :
    ∀ (ms₁ ms₂ : List (List Char)) (pts : List (List Char)),
      pts.length < n →
      n ≤ (collectNumbered topic (some n) pts ms₁).length →
      collectNumbered topic (some n) pts (ms₁ ++ ms₂) =
        collectNumbered topic (some n) pts ms₁ := by
  intro ms₁
  induction ms₁ with
  | nil =>
    intro ms₂ pts hlt hfull
    simp only [collectNumbered] at hfull
    omega
  | cons m ms₁ ih =>
    intro ms₂ pts hlt hfull
    rw [List.cons_append]
    simp only [collectNumbered] at hfull ⊢
    rcases hc : cleanUpPoint (trimChars (stripNumMarker m)) topic with _ | q
    · simp only [hc] at hfull ⊢
      exact ih ms₂ pts hlt hfull
    · simp only [hc] at hfull ⊢
      by_cases hf : geBound (pts ++ [q]).length (some n) = true
      · rw [if_pos hf, if_pos hf]
      · rw [if_neg hf] at hfull
        rw [if_neg hf, if_neg hf]
        apply ih
        · simp only [geBound, decide_eq_true_eq] at hf
          have hlen : (pts ++ [q]).length = pts.length + 1 := by simp
          omega
        · exact hfull

theorem collectSentences_stop {topic : List Char} {n : Nat} :
    ∀ (ss₁ ss₂ : List (List Char)) (pts : List (List Char)),
      n ≤ (collectSentences topic (some n) pts ss₁).length →
      collectSentences topic (some n) pts (ss₁ ++ ss₂) =
        collectSentences topic (some n) pts ss₁ := by
  intro ss₁
  induction ss₁ with
  | nil =>
    intro ss₂ pts hfull
    simp only [collectSentences] at hfull
    cases ss₂ with
    | nil => rfl
    | cons s ss =>
      show collectSentences topic (some n) pts (s :: ss) = pts
      simp only [collectSentences]
      rw [if_pos (by simp only [geBound, decide_eq_true_eq]; omega)]
  | cons s ss₁ ih =>
    intro ss₂ pts hfull
    rw [List.cons_append]
    simp only [collectSentences] at hfull ⊢
    by_cases hf : geBound pts.length (some n) = true
    · rw [if_pos hf, if_pos hf]
    rw [if_neg hf] at hfull
    rw [if_neg hf, if_neg hf]
    rcases hc : cleanUpPoint (trimChars s) topic with _ | q
    · simp only [hc] at hfull ⊢
      exact ih ss₂ pts hfull
    · simp only [hc] at hfull ⊢
      by_cases hdup : pts.any (fun q' => containsSub (q.take 20) q') = true
      · rw [if_pos hdup] at hfull
        rw [if_pos hdup, if_pos hdup]
        exact ih ss₂ pts hfull
      · rw [if_neg hdup] at hfull
        rw [if_neg hdup, if_neg hdup]
        exact ih ss₂ (pts ++ [q]) hfull

theorem mem_generateOptimizedSet {inf : Inference} {topic : List Char}
    {rc : Option Nat} {p : List Char}
    (h : p ∈ generateOptimizedSet inf topic rc) :
    (∃ t, cleanUpPoint t topic = some p) ∨ (∃ r, p = topic ++ ' ' :: r) := by
  cases inf with
  | throws =>
    have h2 := List.mem_of_mem_take h
    simp only [fallbackTemplates, List.mem_cons, List.not_mem_nil, or_false] at h2
    rcases h2 with h2 | h2 | h2 | h2 | h2 <;> exact Or.inr ⟨_, h2⟩
  | ok raw singles =>
    have h2 := List.mem_of_mem_take h
    simp only [combinedPoints] at h2
    by_cases h3 : geBound (parseAndExtractPoints raw topic rc).length rc = true
    · rw [if_pos h3] at h2
      exact Or.inl (mem_parseAndExtractPoints h2)
    rw [if_neg h3] at h2
    by_cases h4 : gapCond rc (parseAndExtractPoints raw topic rc).length = true
    · rw [if_pos h4] at h2
      simp only [gapFillPoints] at h2
      rcases List.mem_append.mp h2 with h5 | h5
      · exact Or.inl (mem_parseAndExtractPoints h5)
      · rcases List.mem_filterMap.mp h5 with ⟨i, _, hi⟩
        rcases hs : cleanUpSinglePoint (singles i) topic with _ | q
        · simp only [hs] at hi
          cases hi
        · simp only [hs] at hi
          by_cases hl : 10 < q.length
          · rw [if_pos hl] at hi
            injection hi with hi
            subst hi
            exact Or.inr (cleanUpSinglePoint_shape hs)
          · rw [if_neg hl] at hi
            cases hi
    · rw [if_neg h4] at h2
      exact Or.inl (mem_parseAndExtractPoints h2)

theorem generateOptimizedSet_le (inf : Inference) (topic : List Char) (n : Nat) :
    (generateOptimizedSet inf topic (some n)).length ≤ n := by
  cases inf with
  | throws => exact List.length_take_le _ _
  | ok raw singles => exact List.length_take_le _ _

theorem generateFallbackPoints_length {topic : List Char} {n : Nat} (h5 : n ≤ 5) :
    (generateFallbackPoints topic n).length = n := by
  simp only [generateFallbackPoints, List.length_take, fallbackTemplates]
  simp only [List.length_cons, List.length_nil]
  omega

theorem minLast_cons_isSome (e : List Char × CacheEntry) (rest : Cache) :
    ∃ m, minLast (e :: rest) = some m := by
  simp only [minLast]
  rcases minLast rest with _ | mr
  · exact ⟨_, rfl⟩
  · exact ⟨_, rfl⟩

theorem minLast_le : ∀ (l : Cache) (m : Nat), minLast l = some m →
    ∀ e ∈ l, m ≤ e.2.lastUsed := by
  intro l
  induction l with
  | nil => intro m hm; cases hm
  | cons e rest ih =>
    intro m hm e' he'
    simp only [minLast] at hm
    rcases hr : minLast rest with _ | mr
    · rw [hr] at hm
      injection hm with hm
      subst hm
      rcases List.mem_cons.mp he' with he' | he'
      · subst he'; exact le_refl _
      · exfalso
        cases rest with
        | nil => cases he'
        | cons x xs =>
          rcases minLast_cons_isSome x xs with ⟨mm, hmm⟩
          rw [hmm] at hr
          cases hr
    · rw [hr] at hm
      injection hm with hm
      subst hm
      rcases List.mem_cons.mp he' with he' | he'
      · subst he'; exact min_le_left _ _
      · exact le_trans (min_le_right _ _) (ih mr hr e' he')

theorem minLast_isSome : ∀ (l : Cache), l ≠ [] → ∃ m, minLast l = some m := by
  intro l hne
  cases l with
  | nil => exact absurd rfl hne
  | cons e rest =>
    simp only [minLast]
    rcases hr : minLast rest with _ | m'
    · exact ⟨_, rfl⟩
    · exact ⟨_, rfl⟩

theorem minLast_mem : ∀ (l : Cache) (m : Nat), minLast l = some m →
    ∃ e ∈ l, e.2.lastUsed = m := by
  intro l
  induction l with
  | nil => intro m hm; cases hm
  | cons e rest ih =>
    intro m hm
    simp only [minLast] at hm
    rcases hr : minLast rest with _ | mr
    · rw [hr] at hm
      injection hm with hm
      exact ⟨e, List.mem_cons_self _ _, hm⟩
    · rw [hr] at hm
      injection hm with hm
      by_cases h2 : mr < e.2.lastUsed
      · rcases ih mr hr with ⟨e', he', he2⟩
        exact ⟨e', List.mem_cons_of_mem _ he', by omega⟩
      · exact ⟨e, List.mem_cons_self _ _, by omega⟩

theorem findOldestGo_ge : ∀ (l : Cache) (bk : Option (List Char)) (bt : Nat),
    (∀ e ∈ l, bt ≤ e.2.lastUsed) → findOldestGo bk bt l = (bk, bt) := by
  intro l
  induction l with
  | nil => intro bk bt _; rfl
  | cons e rest ih =>
    intro bk bt h
    simp only [findOldestGo]
    rw [if_neg (by have := h e (List.mem_cons_self _ _); omega)]
    exact ih bk bt (fun e' he' => h e' (List.mem_cons_of_mem _ he'))

theorem findOldestGo_min : ∀ (l : Cache) (bk : Option (List Char)) (bt m : Nat),
    minLast l = some m → m < bt →
    findOldestGo bk bt l =
      ((l.find? (fun e => e.2.lastUsed == m)).map (fun e => e.1), m) := by
  intro l
  induction l with
  | nil => intro bk bt m hm; cases hm
  | cons e rest ih =>
    intro bk bt m hm hlt
    simp only [minLast] at hm
    simp only [findOldestGo]
    rcases hr : minLast rest with _ | m'
    · rw [hr] at hm
      injection hm with hm
      subst hm
      have hrest : rest = [] := by
        cases rest with
        | nil => rfl
        | cons x xs =>
          rcases minLast_cons_isSome x xs with ⟨mm, hmm⟩
          rw [hmm] at hr
          cases hr
      subst hrest
      rw [if_pos hlt]
      simp only [findOldestGo]
      rw [List.find?_cons_of_pos _ (by simp)]
      rfl
    · rw [hr] at hm
      injection hm with hm
      subst hm
      by_cases hbe : e.2.lastUsed < bt
      · rw [if_pos hbe]
        by_cases h2 : m' < e.2.lastUsed
        · have hmin : min e.2.lastUsed m' = m' := by omega
          rw [hmin, ih (some e.1) e.2.lastUsed m' hr h2,
            List.find?_cons_of_neg _ (by simp; omega)]
        · have hmin : min e.2.lastUsed m' = e.2.lastUsed := by omega
          rw [hmin, findOldestGo_ge rest (some e.1) e.2.lastUsed
            (fun e' he' => le_trans (le_min (le_refl _) (by omega) :
              e.2.lastUsed ≤ min e.2.lastUsed m')
              (le_trans (min_le_right _ _) (minLast_le rest m' hr e' he'))),
            List.find?_cons_of_pos _ (by simp)]
          rfl
      · rw [if_neg hbe]
        have hm2 : m' < e.2.lastUsed := by
          rcases Nat.lt_or_ge m' e.2.lastUsed with h2 | h2
          · exact h2
          · exfalso
            have : min e.2.lastUsed m' = e.2.lastUsed := by omega
            omega
        have hmin : min e.2.lastUsed m' = m' := by omega
        rw [hmin] at hlt ⊢
        rw [ih bk bt m' hr hlt,
          List.find?_cons_of_neg _ (by simp; omega)]

theorem findOldest_eq_lruVictim {c : Cache} {now : Nat}
    (h : ∀ e ∈ c, e.2.lastUsed < now) (hne : c ≠ []) :
    findOldest c now = lruVictim c := by
  rcases minLast_isSome c hne with ⟨m, hm⟩
  rcases minLast_mem c m hm with ⟨e0, he0, he0m⟩
  have hmlt : m < now := by
    have := h e0 he0
    omega
  unfold findOldest lruVictim
  rw [findOldestGo_min c none now m hm hmlt]
  simp only [hm]

theorem lruVictim_isSome {c : Cache} (hne : c ≠ []) :
    ∃ k e0, lruVictim c = some k ∧ e0 ∈ c ∧ e0.1 = k ∧
      minLast c = some e0.2.lastUsed := by
  rcases minLast_isSome c hne with ⟨m, hm⟩
  rcases minLast_mem c m hm with ⟨e0, he0, he0m⟩
  have hsome : (c.find? (fun e => e.2.lastUsed == m)).isSome = true := by
    rw [List.find?_isSome]
    exact ⟨e0, he0, by simp [he0m]⟩
  rcases hf : c.find? (fun e => e.2.lastUsed == m) with _ | ef
  · rw [hf] at hsome; cases hsome
  · have hefm : ef.2.lastUsed = m := by
      have := List.find?_some hf
      simpa using this
    refine ⟨ef.1, ef, ?_, List.mem_of_find?_eq_some hf, rfl, ?_⟩
    · unfold lruVictim
      simp only [hm, hf, Option.map_some']
    · rw [hm, hefm]

theorem cleanCache_fst_sublist (c : Cache) (h : Hits) (now : Nat) :
    (cleanCache c h now).1.Sublist c := by
  unfold cleanCache
  by_cases hlen : MAX_CACHE_SIZE ≤ c.length
  · rw [if_pos hlen]
    rcases hf : findOldest c now with _ | k
    · simp only [hf]
      exact List.Sublist.refl c
    · simp only [hf]
      exact List.eraseP_sublist c
  · rw [if_neg hlen]

theorem eraseKeyC_length {c : Cache} {k : List Char}
    {e0 : List Char × CacheEntry} (he0 : e0 ∈ c) (hk : e0.1 = k) :
    (eraseKeyC c k).length + 1 = c.length := by
  have hp : (e0.1 == k) = true := by
    rw [hk]
    exact beq_self_eq_true k
  have h1 := @List.length_eraseP_of_mem _ c e0 (fun e => e.1 == k) he0 hp
  have h2 : 1 ≤ c.length := List.length_pos.mpr (List.ne_nil_of_mem he0)
  unfold eraseKeyC
  omega

theorem cleanCache_at_capacity {c : Cache} {h : Hits} {now : Nat}
    (hlen : MAX_CACHE_SIZE ≤ c.length) (ht : ∀ e ∈ c, e.2.lastUsed < now) :
    ∃ k, lruVictim c = some k ∧
      cleanCache c h now = (eraseKeyC c k, eraseKeyH h k) ∧
      (eraseKeyC c k).length + 1 = c.length := by
  have hne : c ≠ [] := by
    intro e
    subst e
    simp [MAX_CACHE_SIZE] at hlen
  rcases lruVictim_isSome hne with ⟨k, e0, hv, he0, hk, _⟩
  refine ⟨k, hv, ?_, eraseKeyC_length he0 hk⟩
  unfold cleanCache
  rw [if_pos hlen]
  simp only [findOldest_eq_lruVictim ht hne, hv]

theorem cleanCache_small {c : Cache} {h : Hits} {now : Nat}
    (hlen : c.length < MAX_CACHE_SIZE) : cleanCache c h now = (c, h) := by
  unfold cleanCache
  rw [if_neg (by omega)]

theorem runCacheTrace_lastUsed : ∀ (tr : List (List Char × Nat)),
    ∀ e ∈ runCacheTrace tr, ∃ x ∈ tr, e.2.lastUsed = x.2 := by
  intro tr
  induction tr with
  | nil => intro e he; cases he
  | cons kt rest ih =>
    intro e he
    simp only [runCacheTrace] at he
    unfold cacheStep at he
    by_cases hhit : (lookupC (runCacheTrace rest) kt.1).isSome = true
    · rw [if_pos hhit] at he
      unfold touchEntry at he
      rcases List.mem_map.mp he with ⟨e', he', hfe⟩
      by_cases hk : (e'.1 == kt.1) = true
      · rw [if_pos hk] at hfe
        refine ⟨kt, List.mem_cons_self _ _, ?_⟩
        rw [← hfe]
      · rw [if_neg hk] at hfe
        subst hfe
        rcases ih e' he' with ⟨x, hx, hex⟩
        exact ⟨x, List.mem_cons_of_mem _ hx, hex⟩
    · rw [if_neg hhit] at he
      rcases List.mem_append.mp he with he | he
      · have hmem : e ∈ runCacheTrace rest :=
          List.Sublist.mem he (cleanCache_fst_sublist _ _ _)
        rcases ih e hmem with ⟨x, hx, hex⟩
        exact ⟨x, List.mem_cons_of_mem _ hx, hex⟩
      · simp only [List.mem_singleton] at he
        subst he
        exact ⟨kt, List.mem_cons_self _ _, rfl⟩

theorem runCacheTrace_le : ∀ (tr : List (List Char × Nat)),
    List.Pairwise (fun a b => b.2 < a.2) tr →
    (runCacheTrace tr).length ≤ MAX_CACHE_SIZE := by
  intro tr
  induction tr with
  | nil =>
    intro _
    simp [runCacheTrace, MAX_CACHE_SIZE]
  | cons kt rest ih =>
    intro hp
    have hp' := List.pairwise_cons.mp hp
    have hrest := ih hp'.2
    have htimes : ∀ e ∈ runCacheTrace rest, e.2.lastUsed < kt.2 := by
      intro e he
      rcases runCacheTrace_lastUsed rest e he with ⟨x, hx, hex⟩
      rw [hex]
      exact hp'.1 x hx
    simp only [runCacheTrace]
    unfold cacheStep
    by_cases hhit : (lookupC (runCacheTrace rest) kt.1).isSome = true
    · rw [if_pos hhit]
      unfold touchEntry
      rw [List.length_map]
      exact hrest
    · rw [if_neg hhit]
      rw [List.length_append]
      by_cases hcap : MAX_CACHE_SIZE ≤ (runCacheTrace rest).length
      · rcases cleanCache_at_capacity hcap htimes with ⟨k, _, hcc, hlenk⟩
        rw [hcc]
        simp only [List.length_cons, List.length_nil]
        omega
      · rw [cleanCache_small (by omega)]
        simp only [List.length_cons, List.length_nil]
        omega

theorem findOldest_all_now {c : Cache} {now : Nat}
    (h : ∀ e ∈ c, now ≤ e.2.lastUsed) : findOldest c now = none := by
  unfold findOldest
  rw [findOldestGo_ge c none now h]

theorem cacheStep_fresh_same {c : Cache} {k : List Char} {now : Nat}
    (h0 : ∀ e ∈ c, now ≤ e.2.lastUsed) (hfresh : lookupC c k = none) :
    cacheStep c k [] now = c ++ [(k, ⟨[], 0, now, now⟩)] := by
  have hcc : (cleanCache c [] now).1 = c := by
    unfold cleanCache
    by_cases hlen : MAX_CACHE_SIZE ≤ c.length
    · rw [if_pos hlen]
      simp only [findOldest_all_now h0]
    · rw [if_neg hlen]
  unfold cacheStep
  rw [hfresh]
  rw [if_neg (by simp), hcc]

theorem runCacheTrace_zero : ∀ (tr : List (List Char × Nat)),
    (∀ x ∈ tr, x.2 = 0) → (tr.map (fun x => x.1)).Nodup →
    (runCacheTrace tr).length = tr.length ∧
      ∀ e ∈ runCacheTrace tr, e.1 ∈ tr.map (fun x => x.1) := by
  intro tr
  induction tr with
  | nil => exact fun _ _ => ⟨rfl, fun e he => absurd he (List.not_mem_nil e)⟩
  | cons kt rest ih =>
    intro h0 hnd
    rw [List.map_cons] at hnd
    have hnd' := List.nodup_cons.mp hnd
    rcases ih (fun x hx => h0 x (List.mem_cons_of_mem _ hx)) hnd'.2 with ⟨ihl, ihk⟩
    have hfresh : lookupC (runCacheTrace rest) kt.1 = none := by
      unfold lookupC
      rw [Option.map_eq_none', List.find?_eq_none]
      intro x hx hbeq
      apply hnd'.1
      have hx1 : x.1 = kt.1 := by simpa using hbeq
      rw [← hx1]
      exact ihk x hx
    have h00 : kt.2 = 0 := h0 kt (List.mem_cons_self _ _)
    simp only [runCacheTrace]
    rw [cacheStep_fresh_same (fun e _ => by omega) hfresh]
    constructor
    · rw [List.length_append, ihl]
      simp
    · intro e he
      rcases List.mem_append.mp he with he | he
      · exact List.mem_cons_of_mem _ (ihk e he)
      · simp only [List.mem_singleton] at he
        subst he
        simp

/-- The 201 distinct-key cache inserts, all carrying the same `Date.now()`
value (successive operations within one millisecond). -/
def sameTimeInserts : List (List Char × Nat) :=
  (List.range 201).map (fun i => (List.replicate i 'a', 0))

theorem lookupC_append_self {c : Cache} {k : List Char} {e : CacheEntry}
    (h : lookupC c k = none) : lookupC (c ++ [(k, e)]) k = some e := by
  have h' : c.find? (fun x => x.1 == k) = none := by
    rcases hf : c.find? (fun x => x.1 == k) with _ | y
    · exact hf
    · unfold lookupC at h
      rw [hf] at h
      cases h
  unfold lookupC
  rw [List.find?_append, h', Option.none_or,
    @List.find?_cons_of_pos _ (fun x => x.1 == k) (k, e) [] (by simp)]
  rfl

theorem lookupC_sublist_none {c c' : Cache} {k : List Char}
    (hsub : c'.Sublist c) (hk : lookupC c k = none) : lookupC c' k = none := by
  have h' : c.find? (fun x => x.1 == k) = none := by
    rcases hf : c.find? (fun x => x.1 == k) with _ | y
    · exact hf
    · unfold lookupC at hk
      rw [hf] at hk
      cases hk
  have h2 : c'.find? (fun x => x.1 == k) = none := by
    rw [List.find?_eq_none]
    intro x hx
    exact List.find?_eq_none.mp h' x (List.Sublist.mem hx hsub)
  unfold lookupC
  rw [h2]
  rfl

theorem lookupC_touch {k : List Char} {now : Nat} :
    ∀ {c : Cache} {ent : CacheEntry}, lookupC c k = some ent →
    lookupC (touchEntry c k now) k = some { ent with lastUsed := now } := by
  intro c
  induction c with
  | nil => intro ent h; cases h
  | cons e rest ih =>
    intro ent h
    unfold lookupC at h
    by_cases hk : (e.1 == k) = true
    · rw [@List.find?_cons_of_pos _ (fun x => x.1 == k) e rest hk] at h
      simp only [Option.map_some'] at h
      injection h with h
      subst h
      simp only [touchEntry, lookupC, List.map_cons, if_pos hk]
      have hstep : List.find? (fun x : List Char × CacheEntry => x.1 == k)
          ((e.1, { e.2 with lastUsed := now }) ::
            List.map (fun x : List Char × CacheEntry =>
              if x.1 == k then (x.1, { x.2 with lastUsed := now }) else x) rest) =
          some (e.1, { e.2 with lastUsed := now }) :=
        List.find?_cons_of_pos _ hk
      rw [hstep]
      rfl
    · rw [@List.find?_cons_of_neg _ (fun x => x.1 == k) e rest hk] at h
      have hrest : lookupC rest k = some ent := h
      have hih := ih hrest
      simp only [touchEntry, lookupC] at hih ⊢
      rw [List.map_cons, if_neg hk]
      have hstep : List.find? (fun x : List Char × CacheEntry => x.1 == k)
          (e :: List.map (fun x : List Char × CacheEntry =>
            if x.1 == k then (x.1, { x.2 with lastUsed := now }) else x) rest) =
          List.find? (fun x : List Char × CacheEntry => x.1 == k)
            (List.map (fun x : List Char × CacheEntry =>
              if x.1 == k then (x.1, { x.2 with lastUsed := now }) else x) rest) :=
        List.find?_cons_of_neg _ hk
      rw [hstep]
      exact hih

theorem requestedCountJS_bounds {count : Option JVal} {z : Int}
    (h : requestedCountJS count = some z) : 1 ≤ z ∧ z ≤ 5 := by
  cases count with
  | none =>
    simp only [requestedCountJS] at h
    injection h with h
    omega
  | some v =>
    simp only [requestedCountJS] at h
    rcases hp : parseIntJS v with _ | n
    · rw [hp] at h
      cases h
    · rw [hp] at h
      simp only [Option.map_some'] at h
      injection h with h
      omega

theorem requestedCountN_of_js {count : Option JVal} {z : Int}
    (h : requestedCountJS count = some z) :
    requestedCountN count = some z.toNat := by
  unfold requestedCountN
  rw [h]
  rfl

theorem handleGenerate_hit {st : ServerState} {inf : Inference}
    {prompt : List Char} {count : Option JVal} {now : Nat} {ent : CacheEntry}
    (hv : trimChars prompt ≠ [])
    (h : lookupC st.cache
        (getCacheKey (trimChars prompt) (requestedCountN count)) = some ent) :
    handleGenerate st true inf prompt count now =
      (Response.ok (trimChars prompt) (requestedCountN count)
        ent.points.length ent.points true,
       ⟨touchEntry st.cache
          (getCacheKey (trimChars prompt) (requestedCountN count)) now,
        bumpHits st.hits
          (getCacheKey (trimChars prompt) (requestedCountN count))⟩) := by
  simp only [handleGenerate]
  rw [if_neg (fun hh => hv (List.length_eq_zero.mp hh)), if_neg (by simp)]
  simp only [h]

theorem handleGenerate_miss {st : ServerState} {inf : Inference}
    {prompt : List Char} {count : Option JVal} {now : Nat}
    (hv : trimChars prompt ≠ [])
    (h : lookupC st.cache
        (getCacheKey (trimChars prompt) (requestedCountN count)) = none) :
    handleGenerate st true inf prompt count now =
      (Response.ok (trimChars prompt) (requestedCountN count)
        (generateOptimizedSet inf (trimChars prompt) (requestedCountN count)).length
        (generateOptimizedSet inf (trimChars prompt) (requestedCountN count)) false,
       ⟨(cleanCache st.cache st.hits now).1 ++
          [(getCacheKey (trimChars prompt) (requestedCountN count),
            ⟨generateOptimizedSet inf (trimChars prompt) (requestedCountN count),
              0, now, now⟩)],
        (cleanCache st.cache st.hits now).2⟩) := by
  simp only [handleGenerate]
  rw [if_neg (fun hh => hv (List.length_eq_zero.mp hh)), if_neg (by simp)]
  simp only [h]

theorem cleanCache_snd_sublist (c : Cache) (h : Hits) (now : Nat) :
    (cleanCache c h now).2.Sublist h := by
  unfold cleanCache
  by_cases hlen : MAX_CACHE_SIZE ≤ c.length
  · rw [if_pos hlen]
    rcases hf : findOldest c now with _ | k
    · simp only [hf]
      exact List.Sublist.refl h
    · simp only [hf]
      exact List.eraseP_sublist h
  · rw [if_neg hlen]

theorem bumpHits_pos {h : Hits} {k : List Char}
    (hp : ∀ e ∈ h, 1 ≤ e.2) : ∀ e ∈ bumpHits h k, 1 ≤ e.2 := by
  intro e he
  unfold bumpHits at he
  by_cases hs : (h.find? (fun x => x.1 == k)).isSome = true
  · rw [if_pos hs] at he
    rcases List.mem_map.mp he with ⟨e', he', hfe⟩
    by_cases hk : (e'.1 == k) = true
    · rw [if_pos hk] at hfe
      rw [← hfe]
      omega
    · rw [if_neg hk] at hfe
      rw [← hfe]
      exact hp e' he'
  · rw [if_neg hs] at he
    rcases List.mem_append.mp he with he | he
    · exact hp e he
    · simp only [List.mem_singleton] at he
      rw [he]

theorem handleGenerate_hits_pos {st : ServerState} {loadOk : Bool}
    {inf : Inference} {prompt : List Char} {count : Option JVal} {now : Nat}
    (hp : ∀ e ∈ st.hits, 1 ≤ e.2) :
    ∀ e ∈ (handleGenerate st loadOk inf prompt count now).2.hits, 1 ≤ e.2 := by
  unfold handleGenerate
  by_cases h0 : (trimChars prompt).length = 0
  · rw [if_pos h0]
    exact hp
  rw [if_neg h0]
  by_cases hl : ¬ loadOk = true
  · rw [if_pos hl]
    exact hp
  rw [if_neg hl]
  rcases hL : lookupC st.cache
      (getCacheKey (trimChars prompt) (requestedCountN count)) with _ | ent
  · simp only [hL]
    intro e he
    exact hp e (List.Sublist.mem he (cleanCache_snd_sublist _ _ _))
  · simp only [hL]
    exact bumpHits_pos hp

theorem runRequests_hits_pos :
    ∀ (reqs : List (List Char × Option JVal × Inference × Nat))
      (st : ServerState), (∀ e ∈ st.hits, 1 ≤ e.2) →
      ∀ e ∈ (runRequests st reqs).hits, 1 ≤ e.2 := by
  intro reqs
  induction reqs with
  | nil => intro st hp; exact hp
  | cons r rest ih =>
    intro st hp
    exact ih _ (handleGenerate_hits_pos hp)

theorem toFixed1_100 : toFixed1 100 = "100.0".toList := by
  have hf : Int.floor ((100 : ℚ) * 10 + 1 / 2) = 1000 := by
    rw [Int.floor_eq_iff]
    constructor <;> norm_num
  simp only [toFixed1, hf]
  decide

theorem calculateCacheHitRate_shape {h : Hits} (hp : ∀ e ∈ h, 1 ≤ e.2) :
    calculateCacheHitRate h =
      if h.isEmpty then JVal.num 0 else JVal.str ("100.0".toList) := by
  unfold calculateCacheHitRate
  cases h with
  | nil => rfl
  | cons e rest =>
    have h1 : 1 ≤ e.2 := hp e (List.mem_cons_self _ _)
    have hpos : 0 < ((e :: rest).map (fun x => x.2)).sum := by
      simp only [List.map_cons, List.sum_cons]
      omega
    rw [if_pos hpos]
    have hne : ((e :: rest).isEmpty = false) := rfl
    rw [hne]
    simp only [Bool.false_eq_true, if_false]
    congr 1
    have hsum : ((e :: rest).map (fun x => x.2)).sum ≠ 0 := by omega
    have hs : ((((e :: rest).map (fun x => x.2)).sum : Nat) : ℚ) ≠ 0 :=
      Nat.cast_ne_zero.mpr hsum
    rw [div_self hs, one_mul]
    exact toFixed1_100

/-- C1 — counterexample: for the valid topic `"solar energy"` and count 1,
the fallback path of the pipeline returns one statement that violates the
Statement well-formedness predicate of the claim (it starts with the
lowercase topic, not an uppercase letter). -/
theorem C1_counterexample :
    (generateOptimizedSet Inference.throws ("solar energy".toList)
      (some 1)).length = 1 ∧
    specWellFormed ((generateOptimizedSet Inference.throws
      ("solar energy".toList) (some 1)).headD []) = false := by
  decide

/-- C1 (amended): for every inference outcome, valid topic and count in
[1,5], the pipeline returns at most `requestedCount` statements, and every
returned statement either (structured-cleanup path) is non-empty, trimmed,
ends in `.`/`!`/`?`, has at most 200 characters, contains neither
`"undefined"` nor `"null"`, and its first character is not a lowercase
letter (uppercase whenever it is a letter), or (single-starter and fallback
paths) is the raw topic followed by a space and further text, so it
satisfies the well-formedness predicate only insofar as the topic does. -/
theorem C1_amended (inf : Inference) (topic : List Char) (n : Nat)
    (hv : trimChars topic ≠ []) (h1 : 1 ≤ n) (h5 : n ≤ 5) :
    (generateOptimizedSet inf topic (some n)).length ≤ n ∧
    ∀ p ∈ generateOptimizedSet inf topic (some n),
      (p ≠ [] ∧ trimChars p = p ∧
        (∀ c, p.head? = some c → isAsciiLower c = false) ∧
        endsPunct p = true ∧ p.length ≤ 200 ∧
        containsSub undefinedMarker p = false ∧
        containsSub nullMarker p = false) ∨
      (∃ r, p = topic ++ ' ' :: r) := by
  refine ⟨generateOptimizedSet_le inf topic n, ?_⟩
  intro p hp
  rcases mem_generateOptimizedSet hp with ⟨t, ht⟩ | hr
  · exact Or.inl (cleanUpPoint_wf ht)
  · exact Or.inr hr

theorem C1_witness :
    (trimChars ("solar energy".toList) ≠ [] ∧ 1 ≤ 1 ∧ 1 ≤ 5) ∧
    ((generateOptimizedSet Inference.throws ("solar energy".toList)
        (some 1)).length ≤ 1 ∧
      ∀ p ∈ generateOptimizedSet Inference.throws ("solar energy".toList)
          (some 1),
        (p ≠ [] ∧ trimChars p = p ∧
          (∀ c, p.head? = some c → isAsciiLower c = false) ∧
          endsPunct p = true ∧ p.length ≤ 200 ∧
          containsSub undefinedMarker p = false ∧
          containsSub nullMarker p = false) ∨
        (∃ r, p = "solar energy".toList ++ ' ' :: r)) :=
  ⟨⟨by decide, by decide, by decide⟩,
   C1_amended Inference.throws ("solar energy".toList) 1
     (by decide) (by decide) (by decide)⟩

/-- C2 — counterexample: with no inference call throwing, a structured
result and gap-fill results that all clean to nothing leave the orchestrator
with zero statements, and it returns the empty list rather than padding with
the fallback statements (whose list would supply 3). -/
theorem C2_counterexample :
    generateOptimizedSet (Inference.ok [] (fun _ => []))
      ("solar energy".toList) (some 3) = [] ∧
    (generateFallbackPoints ("solar energy".toList) 3).length = 3 := by
  decide

/-- C2 (amended): the fallback list is used only when an inference call
throws (then exactly `requestedCount` fallback statements are returned for
counts in [1,5]); when no call throws and the combined count after the
structured attempt and the gap-fill phase is below `requestedCount`, the
orchestrator returns exactly that shorter combined list, with no fallback
padding. -/
theorem C2_amended (topic : List Char) (n : Nat) (h1 : 1 ≤ n) (h5 : n ≤ 5) :
    (generateOptimizedSet Inference.throws topic (some n)).length = n ∧
    ∀ (raw : List Char) (singles : Nat → List Char),
      (combinedPoints raw singles topic (some n)).length < n →
        generateOptimizedSet (Inference.ok raw singles) topic (some n) =
          combinedPoints raw singles topic (some n) ∧
        (generateOptimizedSet (Inference.ok raw singles) topic
          (some n)).length < n := by
  constructor
  · exact generateFallbackPoints_length h5
  · intro raw singles hlt
    have he : generateOptimizedSet (Inference.ok raw singles) topic (some n) =
        (combinedPoints raw singles topic (some n)).take n := rfl
    rw [he, List.take_of_length_le (le_of_lt hlt)]
    exact ⟨rfl, hlt⟩

theorem C2_witness :
    (1 ≤ 3 ∧ 3 ≤ 5 ∧
      (combinedPoints [] (fun _ => []) ("solar energy".toList)
        (some 3)).length < 3) ∧
    ((generateOptimizedSet Inference.throws ("solar energy".toList)
        (some 3)).length = 3 ∧
      generateOptimizedSet (Inference.ok [] (fun _ => []))
          ("solar energy".toList) (some 3) =
        combinedPoints [] (fun _ => []) ("solar energy".toList) (some 3) ∧
      (generateOptimizedSet (Inference.ok [] (fun _ => []))
        ("solar energy".toList) (some 3)).length < 3) :=
  ⟨⟨by decide, by decide, by decide⟩,
   ⟨(C2_amended ("solar energy".toList) 3 (by decide) (by decide)).1,
    (C2_amended ("solar energy".toList) 3 (by decide) (by decide)).2
      [] (fun _ => []) (by decide)⟩⟩

/-- C3: when the model handle is available but every inference call throws,
a `POST /api/generate` request with a valid prompt, a numeric count (clamped
to `z ∈ [1,5]`) and an uncached key still completes as HTTP 200 with
`success: true` and exactly `z` generic fallback statements; the fallback
list has 5 entries, so it is never shorter than a clamped count. -/
theorem C3_fallback_exact (st : ServerState) (prompt : List Char)
    (count : Option JVal) (now : Nat) (z : Int)
    (hv : trimChars prompt ≠ [])
    (hc : requestedCountJS count = some z)
    (hmiss : lookupC st.cache
      (getCacheKey (trimChars prompt) (requestedCountN count)) = none) :
    respSuccess (handleGenerate st true Inference.throws prompt count now).1 =
      true ∧
    respPoints (handleGenerate st true Inference.throws prompt count now).1 =
      generateFallbackPoints (trimChars prompt) z.toNat ∧
    respGenCount (handleGenerate st true Inference.throws prompt count now).1 =
      z.toNat ∧
    (fallbackTemplates (trimChars prompt)).length = 5 := by
  rcases requestedCountJS_bounds hc with ⟨hz1, hz5⟩
  have hn := requestedCountN_of_js hc
  rw [handleGenerate_miss hv hmiss]
  have hgen : generateOptimizedSet Inference.throws (trimChars prompt)
      (requestedCountN count) =
      generateFallbackPoints (trimChars prompt) z.toNat := by
    rw [hn]
    rfl
  refine ⟨rfl, ?_, ?_, by simp [fallbackTemplates]⟩
  · simp only [respPoints, hgen]
  · simp only [respGenCount, hgen]
    exact generateFallbackPoints_length (by omega)

theorem C3_witness :
    (trimChars ("solar energy".toList) ≠ [] ∧
      requestedCountJS (some (JVal.num 3)) = some 3 ∧
      lookupC initialState.cache
        (getCacheKey (trimChars ("solar energy".toList))
          (requestedCountN (some (JVal.num 3)))) = none) ∧
    (respSuccess (handleGenerate initialState true Inference.throws
        ("solar energy".toList) (some (JVal.num 3)) 0).1 = true ∧
      respPoints (handleGenerate initialState true Inference.throws
          ("solar energy".toList) (some (JVal.num 3)) 0).1 =
        generateFallbackPoints (trimChars ("solar energy".toList))
          (Int.toNat 3) ∧
      respGenCount (handleGenerate initialState true Inference.throws
          ("solar energy".toList) (some (JVal.num 3)) 0).1 = Int.toNat 3 ∧
      (fallbackTemplates (trimChars ("solar energy".toList))).length = 5) :=
  ⟨⟨by decide, by decide, by decide⟩,
   C3_fallback_exact initialState ("solar energy".toList) (some (JVal.num 3))
     0 3 (by decide) (by decide) (by decide)⟩

/-- C4 — the claim is right and the code is wrong: after one successful
load (`generator` assigned, `modelLoading` back to `false`), a subsequent
`loadModel()` call takes the `startLoad` branch again, because the memo
guard tests `generator && tokenizer` and `tokenizer` (line 27) is never
assigned anywhere, so it is still null.  The claim (and the guard's own
evident intent) say the cached handle is returned without a new load. -/
theorem C4_codebug :
    loadModelAction (loadSucceeds (startLoading initialGate)) =
      LoadAction.startLoad ∧
    (loadSucceeds (startLoading initialGate)).generator = true ∧
    (loadSucceeds (startLoading initialGate)).modelLoading = false ∧
    (loadSucceeds (startLoading initialGate)).tokenizer = false := by
  decide

/-- C5 — counterexample: 201 cache inserts of distinct keys all carrying the
same `Date.now()` value (back-to-back operations within one millisecond):
the eviction scan only accepts entries with `lastUsed` strictly below the
current time, finds no victim, and the cache grows to 201 > 200 entries. -/
theorem C5_counterexample :
    MAX_CACHE_SIZE < (runCacheTrace sameTimeInserts).length := by
  have h0 : ∀ x ∈ sameTimeInserts, x.2 = 0 := by
    intro x hx
    simp only [sameTimeInserts, List.mem_map] at hx
    rcases hx with ⟨i, _, hi⟩
    rw [← hi]
  have hinj : Function.Injective (fun i : Nat => List.replicate i 'a') := by
    intro a b hab
    have hl := congrArg List.length hab
    simpa using hl
  have hnd : (sameTimeInserts.map (fun x => x.1)).Nodup := by
    simp only [sameTimeInserts, List.map_map]
    exact List.Nodup.map hinj (List.nodup_range 201)
  have h := (runCacheTrace_zero sameTimeInserts h0 hnd).1
  rw [h]
  simp [sameTimeInserts, MAX_CACHE_SIZE]

/-- C5 (amended): after any insert the cache size never exceeds
`MAX_CACHE_SIZE`, provided every operation's timestamp is strictly greater
than all earlier ones (`Date.now()` strictly increasing across operations);
and whenever the cache is at capacity and every entry's `lastUsed` is
strictly below the current time, `cleanCache` deletes exactly the
first-encountered entry with the minimal `lastUsed` from both maps.  When
the oldest entry's `lastUsed` equals the current timestamp, no eviction
occurs and the bound can be exceeded (see the counterexample). -/
theorem C5_amended :
    (∀ tr : List (List Char × Nat),
      List.Pairwise (fun a b => b.2 < a.2) tr →
      (runCacheTrace tr).length ≤ MAX_CACHE_SIZE) ∧
    (∀ (c : Cache) (h : Hits) (now : Nat), MAX_CACHE_SIZE ≤ c.length →
      (∀ e ∈ c, e.2.lastUsed < now) →
      ∃ k, lruVictim c = some k ∧
        cleanCache c h now = (eraseKeyC c k, eraseKeyH h k)) := by
  constructor
  · exact runCacheTrace_le
  · intro c h now hlen ht
    rcases cleanCache_at_capacity hlen ht with ⟨k, hv, hcc, _⟩
    exact ⟨k, hv, hcc⟩

theorem C5_witness :
    (List.Pairwise (fun a b : List Char × Nat => b.2 < a.2)
        [(['b'], 1), (['a'], 0)] ∧
      (runCacheTrace [(['b'], 1), (['a'], 0)]).length ≤ MAX_CACHE_SIZE) ∧
    (MAX_CACHE_SIZE ≤
        (List.replicate 200 ((['a'], ⟨[], 0, 0, 0⟩) :
          List Char × CacheEntry)).length ∧
      (∀ e ∈ List.replicate 200 ((['a'], ⟨[], 0, 0, 0⟩) :
          List Char × CacheEntry), e.2.lastUsed < 1) ∧
      ∃ k, lruVictim (List.replicate 200 ((['a'], ⟨[], 0, 0, 0⟩) :
          List Char × CacheEntry)) = some k ∧
        cleanCache (List.replicate 200 ((['a'], ⟨[], 0, 0, 0⟩) :
          List Char × CacheEntry)) [] 1 =
          (eraseKeyC (List.replicate 200 ((['a'], ⟨[], 0, 0, 0⟩) :
            List Char × CacheEntry)) k, eraseKeyH [] k)) :=
  ⟨⟨by decide, C5_amended.1 [(['b'], 1), (['a'], 0)] (by decide)⟩,
   ⟨by decide, by decide,
    C5_amended.2 (List.replicate 200 ((['a'], ⟨[], 0, 0, 0⟩) :
      List Char × CacheEntry)) [] 1 (by decide) (by decide)⟩⟩

/-- C6: two back-to-back `POST /api/generate` requests whose topics agree
after the normalisation named by the spec (case-folded, trimmed, whitespace
runs collapsed) and whose clamped counts agree map to the same cache key,
and the second request is served from the cache: its `points` equal the
first response's `points` and it reports `cached = true`. -/
theorem C6_idempotence (st : ServerState) (p₁ p₂ : List Char)
    (c₁ c₂ : Option JVal) (inf₁ inf₂ : Inference) (t₁ t₂ : Nat) (z : Int)
    (hv₁ : trimChars p₁ ≠ []) (hv₂ : trimChars p₂ ≠ [])
    (hnorm : specNormalize p₁ = specNormalize p₂)
    (hc₁ : requestedCountJS c₁ = some z) (hc₂ : requestedCountJS c₂ = some z) :
    getCacheKey (trimChars p₁) (requestedCountN c₁) =
      getCacheKey (trimChars p₂) (requestedCountN c₂) ∧
    respPoints (handleGenerate (handleGenerate st true inf₁ p₁ c₁ t₁).2
        true inf₂ p₂ c₂ t₂).1 =
      respPoints (handleGenerate st true inf₁ p₁ c₁ t₁).1 ∧
    respCached (handleGenerate (handleGenerate st true inf₁ p₁ c₁ t₁).2
        true inf₂ p₂ c₂ t₂).1 = true := by
  have hrc : requestedCountN c₁ = requestedCountN c₂ := by
    rw [requestedCountN_of_js hc₁, requestedCountN_of_js hc₂]
  have hkey : getCacheKey (trimChars p₁) (requestedCountN c₁) =
      getCacheKey (trimChars p₂) (requestedCountN c₂) := by
    rw [hrc]
    exact getCacheKey_of_specNormalize hnorm _
  refine ⟨hkey, ?_⟩
  rcases hL : lookupC st.cache (getCacheKey (trimChars p₁) (requestedCountN c₁))
    with _ | ent
  · have h1 := @handleGenerate_miss st inf₁ p₁ c₁ t₁ hv₁ hL
    have hclean : lookupC (cleanCache st.cache st.hits t₁).1
        (getCacheKey (trimChars p₁) (requestedCountN c₁)) = none :=
      lookupC_sublist_none (cleanCache_fst_sublist _ _ _) hL
    have hL2 : lookupC ((cleanCache st.cache st.hits t₁).1 ++
        [(getCacheKey (trimChars p₁) (requestedCountN c₁),
          ⟨generateOptimizedSet inf₁ (trimChars p₁) (requestedCountN c₁),
            0, t₁, t₁⟩)])
        (getCacheKey (trimChars p₂) (requestedCountN c₂)) =
        some ⟨generateOptimizedSet inf₁ (trimChars p₁) (requestedCountN c₁),
          0, t₁, t₁⟩ := by
      rw [← hkey]
      exact lookupC_append_self hclean
    have h2 : handleGenerate (handleGenerate st true inf₁ p₁ c₁ t₁).2
        true inf₂ p₂ c₂ t₂ =
        (Response.ok (trimChars p₂) (requestedCountN c₂)
          (generateOptimizedSet inf₁ (trimChars p₁)
            (requestedCountN c₁)).length
          (generateOptimizedSet inf₁ (trimChars p₁) (requestedCountN c₁))
          true,
         ⟨touchEntry ((cleanCache st.cache st.hits t₁).1 ++
            [(getCacheKey (trimChars p₁) (requestedCountN c₁),
              ⟨generateOptimizedSet inf₁ (trimChars p₁)
                (requestedCountN c₁), 0, t₁, t₁⟩)])
            (getCacheKey (trimChars p₂) (requestedCountN c₂)) t₂,
          bumpHits (cleanCache st.cache st.hits t₁).2
            (getCacheKey (trimChars p₂) (requestedCountN c₂))⟩) := by
      rw [h1]
      exact @handleGenerate_hit
        ⟨(cleanCache st.cache st.hits t₁).1 ++
            [(getCacheKey (trimChars p₁) (requestedCountN c₁),
              ⟨generateOptimizedSet inf₁ (trimChars p₁)
                (requestedCountN c₁), 0, t₁, t₁⟩)],
          (cleanCache st.cache st.hits t₁).2⟩
        inf₂ p₂ c₂ t₂
        ⟨generateOptimizedSet inf₁ (trimChars p₁) (requestedCountN c₁),
          0, t₁, t₁⟩
        hv₂ hL2
    rw [h2, h1]
    exact ⟨rfl, rfl⟩
  · have h1 := @handleGenerate_hit st inf₁ p₁ c₁ t₁ ent hv₁ hL
    have hL2 : lookupC (touchEntry st.cache
        (getCacheKey (trimChars p₁) (requestedCountN c₁)) t₁)
        (getCacheKey (trimChars p₂) (requestedCountN c₂)) =
        some { ent with lastUsed := t₁ } := by
      rw [← hkey]
      exact lookupC_touch hL
    have h2 : handleGenerate (handleGenerate st true inf₁ p₁ c₁ t₁).2
        true inf₂ p₂ c₂ t₂ =
        (Response.ok (trimChars p₂) (requestedCountN c₂)
          ({ ent with lastUsed := t₁ } : CacheEntry).points.length
          ({ ent with lastUsed := t₁ } : CacheEntry).points true,
         ⟨touchEntry (touchEntry st.cache
            (getCacheKey (trimChars p₁) (requestedCountN c₁)) t₁)
            (getCacheKey (trimChars p₂) (requestedCountN c₂)) t₂,
          bumpHits (bumpHits st.hits
            (getCacheKey (trimChars p₁) (requestedCountN c₁)))
            (getCacheKey (trimChars p₂) (requestedCountN c₂))⟩) := by
      rw [h1]
      exact @handleGenerate_hit
        ⟨touchEntry st.cache
            (getCacheKey (trimChars p₁) (requestedCountN c₁)) t₁,
          bumpHits st.hits
            (getCacheKey (trimChars p₁) (requestedCountN c₁))⟩
        inf₂ p₂ c₂ t₂ { ent with lastUsed := t₁ } hv₂ hL2
    rw [h2, h1]
    exact ⟨rfl, rfl⟩

theorem C6_witness :
    (trimChars ("Solar  Energy".toList) ≠ [] ∧
      trimChars ("solar energy".toList) ≠ [] ∧
      specNormalize ("Solar  Energy".toList) =
        specNormalize ("solar energy".toList) ∧
      requestedCountJS (some (JVal.num 99)) = some 5) ∧
    (getCacheKey (trimChars ("Solar  Energy".toList))
        (requestedCountN (some (JVal.num 99))) =
      getCacheKey (trimChars ("solar energy".toList))
        (requestedCountN (some (JVal.num 99))) ∧
    respPoints (handleGenerate (handleGenerate initialState true
        Inference.throws ("Solar  Energy".toList) (some (JVal.num 99)) 0).2
        true Inference.throws ("solar energy".toList) (some (JVal.num 99)) 1).1 =
      respPoints (handleGenerate initialState true Inference.throws
        ("Solar  Energy".toList) (some (JVal.num 99)) 0).1 ∧
    respCached (handleGenerate (handleGenerate initialState true
        Inference.throws ("Solar  Energy".toList) (some (JVal.num 99)) 0).2
        true Inference.throws ("solar energy".toList) (some (JVal.num 99)) 1).1 =
      true) :=
  ⟨⟨by decide, by decide, by decide, by decide⟩,
   C6_idempotence initialState ("Solar  Energy".toList)
     ("solar energy".toList) (some (JVal.num 99)) (some (JVal.num 99))
     Inference.throws Inference.throws 0 1 5
     (by decide) (by decide) (by decide) (by decide) (by decide)⟩

/-- C7 — counterexample: a request body whose `count` is the string
`"abc"`: `parseInt` yields `NaN`, `Math.min(Math.max(NaN,1),5)` stays
`NaN`, so the effective `requestedCount` is not in [1,5]. -/
theorem C7_counterexample :
    requestedCountJS (some (JVal.str ("abc".toList))) = none ∧
    ¬ (∃ n, requestedCountJS (some (JVal.str ("abc".toList))) = some n ∧
        1 ≤ n ∧ n ≤ 5) := by
  have h : requestedCountJS (some (JVal.str ("abc".toList))) = none := by
    decide
  refine ⟨h, ?_⟩
  rintro ⟨n, hn, _⟩
  rw [h] at hn
  cases hn

/-- C7 (amended): when `count` is absent the effective count defaults to 3;
when the supplied `count` parses to a number, the clamped value is in [1,5]
(for example `count: 99` becomes 5); a non-numeric `count` value yields
`NaN`, which is outside [1,5]. -/
theorem C7_amended :
    requestedCountJS none = some 3 ∧
    (∀ (v : JVal) (z : Int), requestedCountJS (some v) = some z →
      1 ≤ z ∧ z ≤ 5) ∧
    requestedCountJS (some (JVal.num 99)) = some 5 := by
  refine ⟨by decide, ?_, by decide⟩
  intro v z h
  exact requestedCountJS_bounds h

theorem C7_witness :
    requestedCountJS (some (JVal.num 0)) = some 1 ∧
    1 ≤ (1 : Int) ∧ (1 : Int) ≤ 5 :=
  ⟨by decide, C7_amended.2.1 (JVal.num 0) 1 (by decide)⟩

/-- C8 — counterexample: with `expectedCount = 0` the numbered loop pushes
an accepted candidate before checking the bound, so the extractor returns
one candidate, more than `expectedCount`. -/
theorem C8_counterexample :
    (parseAndExtractPoints ("1. provides great benefits for everyone".toList)
      ("solar".toList) (some 0)).length = 1 := by
  decide

/-- C8 (amended): for every raw text, topic and `expectedCount ≥ 1` (the
pipeline always passes a clamped count in [1,5]), the extractor returns at
most `expectedCount` candidates; and both collection loops stop once
`expectedCount` accepted candidates are gathered: appending further raw
candidates (numbered matches, or sentence fragments) changes nothing once
the bound is reached. -/
theorem C8_amended :
    (∀ (text topic : List Char) (n : Nat), 1 ≤ n →
      (parseAndExtractPoints text topic (some n)).length ≤ n) ∧
    (∀ (topic : List Char) (n : Nat) (pts ms₁ ms₂ : List (List Char)),
      pts.length < n →
      n ≤ (collectNumbered topic (some n) pts ms₁).length →
      collectNumbered topic (some n) pts (ms₁ ++ ms₂) =
        collectNumbered topic (some n) pts ms₁) ∧
    (∀ (topic : List Char) (n : Nat) (pts ss₁ ss₂ : List (List Char)),
      n ≤ (collectSentences topic (some n) pts ss₁).length →
      collectSentences topic (some n) pts (ss₁ ++ ss₂) =
        collectSentences topic (some n) pts ss₁) := by
  refine ⟨?_, ?_, ?_⟩
  · intro text topic n hn
    exact parseAndExtractPoints_le hn
  · intro topic n pts ms₁ ms₂ hlt hfull
    exact collectNumbered_stop ms₁ ms₂ pts hlt hfull
  · intro topic n pts ss₁ ss₂ hfull
    exact collectSentences_stop ss₁ ss₂ pts hfull

theorem C8_witness :
    (1 ≤ 1 ∧
      (parseAndExtractPoints ("1. provides great benefits for everyone".toList)
        ("solar".toList) (some 1)).length ≤ 1) ∧
    (([] : List (List Char)).length < 1 ∧
      1 ≤ (collectNumbered ("solar".toList) (some 1) []
        [("1. provides great benefits for everyone".toList)]).length ∧
      collectNumbered ("solar".toList) (some 1) []
          ([("1. provides great benefits for everyone".toList)] ++
            [("2. another worthwhile point entirely".toList)]) =
        collectNumbered ("solar".toList) (some 1) []
          [("1. provides great benefits for everyone".toList)]) ∧
    (1 ≤ (collectSentences ("solar".toList) (some 1)
        [("Solar is great stuff.".toList)] []).length ∧
      collectSentences ("solar".toList) (some 1)
          [("Solar is great stuff.".toList)]
          ([] ++ [("another candidate sentence here".toList)]) =
        collectSentences ("solar".toList) (some 1)
          [("Solar is great stuff.".toList)] []) :=
  ⟨⟨by decide, C8_amended.1 ("1. provides great benefits for everyone".toList)
      ("solar".toList) 1 (by decide)⟩,
   ⟨by decide, by decide,
    C8_amended.2.1 ("solar".toList) 1 []
      [("1. provides great benefits for everyone".toList)]
      [("2. another worthwhile point entirely".toList)]
      (by decide) (by decide)⟩,
   ⟨by decide,
    C8_amended.2.2 ("solar".toList) 1 [("Solar is great stuff.".toList)]
      [] [("another candidate sentence here".toList)] (by decide)⟩⟩

/-- C9 (amended): the handler caches whatever points list generation
produced, even when it is shorter than `requestedCount` (including the
empty list); the immediately following request with the same cache key is
served that stored short list from the cache, with `cached = true`,
`generatedCount < requestedCount` and no re-generation.  This holds only as
long as the entry has not been evicted: once at least `MAX_CACHE_SIZE`
fresh-key misses intervene, the entry can be evicted and the next same-key
request regenerates (see the counterexample). -/
theorem C9_amended (st : ServerState) (prompt : List Char)
    (count : Option JVal) (inf₁ inf₂ : Inference) (t₁ t₂ : Nat) (z : Int)
    (hv : trimChars prompt ≠ [])
    (hc : requestedCountJS count = some z)
    (hmiss : lookupC st.cache
      (getCacheKey (trimChars prompt) (requestedCountN count)) = none)
    (hshort : (generateOptimizedSet inf₁ (trimChars prompt)
      (requestedCountN count)).length < z.toNat) :
    respCached (handleGenerate st true inf₁ prompt count t₁).1 = false ∧
    respGenCount (handleGenerate st true inf₁ prompt count t₁).1 < z.toNat ∧
    respCached (handleGenerate (handleGenerate st true inf₁ prompt count t₁).2
      true inf₂ prompt count t₂).1 = true ∧
    respPoints (handleGenerate (handleGenerate st true inf₁ prompt count t₁).2
      true inf₂ prompt count t₂).1 =
      respPoints (handleGenerate st true inf₁ prompt count t₁).1 ∧
    respGenCount (handleGenerate (handleGenerate st true inf₁ prompt count t₁).2
      true inf₂ prompt count t₂).1 < z.toNat := by
  have h1 := @handleGenerate_miss st inf₁ prompt count t₁ hv hmiss
  have hclean : lookupC (cleanCache st.cache st.hits t₁).1
      (getCacheKey (trimChars prompt) (requestedCountN count)) = none :=
    lookupC_sublist_none (cleanCache_fst_sublist _ _ _) hmiss
  have hL2 : lookupC ((cleanCache st.cache st.hits t₁).1 ++
      [(getCacheKey (trimChars prompt) (requestedCountN count),
        ⟨generateOptimizedSet inf₁ (trimChars prompt) (requestedCountN count),
          0, t₁, t₁⟩)])
      (getCacheKey (trimChars prompt) (requestedCountN count)) =
      some ⟨generateOptimizedSet inf₁ (trimChars prompt)
        (requestedCountN count), 0, t₁, t₁⟩ :=
    lookupC_append_self hclean
  have h2 : handleGenerate (handleGenerate st true inf₁ prompt count t₁).2
      true inf₂ prompt count t₂ =
      (Response.ok (trimChars prompt) (requestedCountN count)
        (generateOptimizedSet inf₁ (trimChars prompt)
          (requestedCountN count)).length
        (generateOptimizedSet inf₁ (trimChars prompt) (requestedCountN count))
        true,
       ⟨touchEntry ((cleanCache st.cache st.hits t₁).1 ++
          [(getCacheKey (trimChars prompt) (requestedCountN count),
            ⟨generateOptimizedSet inf₁ (trimChars prompt)
              (requestedCountN count), 0, t₁, t₁⟩)])
          (getCacheKey (trimChars prompt) (requestedCountN count)) t₂,
        bumpHits (cleanCache st.cache st.hits t₁).2
          (getCacheKey (trimChars prompt) (requestedCountN count))⟩) := by
    rw [h1]
    exact @handleGenerate_hit
      ⟨(cleanCache st.cache st.hits t₁).1 ++
          [(getCacheKey (trimChars prompt) (requestedCountN count),
            ⟨generateOptimizedSet inf₁ (trimChars prompt)
              (requestedCountN count), 0, t₁, t₁⟩)],
        (cleanCache st.cache st.hits t₁).2⟩
      inf₂ prompt count t₂
      ⟨generateOptimizedSet inf₁ (trimChars prompt) (requestedCountN count),
        0, t₁, t₁⟩
      hv hL2
  rw [h2, h1]
  exact ⟨rfl, hshort, rfl, rfl, hshort⟩

theorem C9_witness :
    (trimChars ['z', 'z'] ≠ [] ∧
      requestedCountJS (some (JVal.num 3)) = some 3 ∧
      lookupC initialState.cache
        (getCacheKey (trimChars ['z', 'z'])
          (requestedCountN (some (JVal.num 3)))) = none ∧
      (generateOptimizedSet (Inference.ok [] (fun _ => []))
        (trimChars ['z', 'z'])
        (requestedCountN (some (JVal.num 3)))).length < Int.toNat 3) ∧
    (respCached (handleGenerate initialState true
        (Inference.ok [] (fun _ => [])) ['z', 'z']
        (some (JVal.num 3)) 0).1 = false ∧
      respGenCount (handleGenerate initialState true
        (Inference.ok [] (fun _ => [])) ['z', 'z']
        (some (JVal.num 3)) 0).1 < Int.toNat 3 ∧
      respCached (handleGenerate (handleGenerate initialState true
          (Inference.ok [] (fun _ => [])) ['z', 'z']
          (some (JVal.num 3)) 0).2 true (Inference.ok [] (fun _ => []))
          ['z', 'z'] (some (JVal.num 3)) 1).1 = true ∧
      respPoints (handleGenerate (handleGenerate initialState true
          (Inference.ok [] (fun _ => [])) ['z', 'z']
          (some (JVal.num 3)) 0).2 true (Inference.ok [] (fun _ => []))
          ['z', 'z'] (some (JVal.num 3)) 1).1 =
        respPoints (handleGenerate initialState true
          (Inference.ok [] (fun _ => [])) ['z', 'z']
          (some (JVal.num 3)) 0).1 ∧
      respGenCount (handleGenerate (handleGenerate initialState true
          (Inference.ok [] (fun _ => [])) ['z', 'z']
          (some (JVal.num 3)) 0).2 true (Inference.ok [] (fun _ => []))
          ['z', 'z'] (some (JVal.num 3)) 1).1 < Int.toNat 3) :=
  ⟨⟨by decide, by decide, by decide, by decide⟩,
   C9_amended initialState ['z', 'z'] (some (JVal.num 3))
     (Inference.ok [] (fun _ => [])) (Inference.ok [] (fun _ => [])) 0 1 3
     (by decide) (by decide) (by decide) (by decide)⟩

/-- C10 (amended): `calculateCacheHitRate` counts only cache hits in both
its numerator and denominator (misses are never recorded), so for every
sequence of requests from startup it reports the string `"100.0"` whenever
at least one hit counter is currently recorded and the number `0`
otherwise.  "Ever occurred" must be weakened to "currently recorded":
`cleanCache` deletes a key's hit counter when it evicts the key, after
which earlier hits are forgotten (see the counterexample). -/
theorem C10_amended :
    ∀ reqs : List (List Char × Option JVal × Inference × Nat),
      calculateCacheHitRate (runRequests initialState reqs).hits =
        if (runRequests initialState reqs).hits.isEmpty then JVal.num 0
        else JVal.str ("100.0".toList) := by
  intro reqs
  apply calculateCacheHitRate_shape
  apply runRequests_hits_pos
  intro e he
  cases he

/-- The prompt of the 200 filler requests used by the eviction
counterexamples: two distinct lowercase letters per index. -/
def fillerPrompt (i : Nat) : List Char :=
  [Char.ofNat (97 + i / 26), Char.ofNat (97 + i % 26)]

/-- An inference outcome whose structured text and single-starter texts are
all empty, so generation accepts nothing and returns the empty list. -/
def okEmpty : Inference := Inference.ok [] (fun _ => [])

/-- The 200 filler requests, all at `Date.now() = 1`. -/
def fillerRequests : List (List Char × Option JVal × Inference × Nat) :=
  (List.range 200).map (fun i => (fillerPrompt i, some (JVal.num 1), okEmpty, 1))

/-- Trace for the C9 counterexample: one request for `"zz"` (count 1) whose
generation produces the empty list, then 200 distinct filler topics. -/
def c9Requests : List (List Char × Option JVal × Inference × Nat) :=
  (['z', 'z'], some (JVal.num 1), okEmpty, 0) :: fillerRequests

/-- C9 — counterexample: the first request for `"zz"` produces and caches an
empty points list, but after 200 distinct-topic misses the entry for
`"zz_1"` has been evicted, so a later request with the same cache key is
*not* served from the cache (`cached = false`, the key is regenerated) —
refuting "every subsequent request with the same cache key is served that
short list from the cache". -/
theorem C9_counterexample :
    respGenCount (handleGenerate initialState true okEmpty ['z', 'z']
      (some (JVal.num 1)) 0).1 = 0 ∧
    respCached (handleGenerate (runRequests initialState c9Requests) true
      okEmpty ['z', 'z'] (some (JVal.num 1)) 2).1 = false := by
  constructor
  · decide
  · decide

/-- Trace for the C10 counterexample: request `"zz"` twice (the second is a
cache hit, recording one hit), then 200 distinct filler topics, the last of
which evicts `"zz_1"` and deletes its hit counter. -/
def c10Requests : List (List Char × Option JVal × Inference × Nat) :=
  (['z', 'z'], some (JVal.num 1), okEmpty, 0) ::
    (['z', 'z'], some (JVal.num 1), okEmpty, 0) :: fillerRequests

/-- C10 — counterexample: a cache hit occurs (second response has
`cached = true`), yet after the eviction of that key `calculateCacheHitRate`
returns the number `0`, not `"100.0"` — refuting "returns 100.0 whenever at
least one cache hit has ever occurred". -/
theorem C10_counterexample :
    respCached (handleGenerate (handleGenerate initialState true okEmpty
      ['z', 'z'] (some (JVal.num 1)) 0).2 true okEmpty ['z', 'z']
      (some (JVal.num 1)) 0).1 = true ∧
    calculateCacheHitRate (runRequests initialState c10Requests).hits =
      JVal.num 0 := by
  constructor
  · decide
  · decide

end Srv
